import Mathlib

/-!
Verification of the workspace lifecycle manager (`src/workspace.rs`,
`src/mirror.rs`, `src/config.rs` of the `ws` repository).

The embedding is shallow:
* paths (`std::path::PathBuf`) become lists of components, `join` is append;
* the external git backend (`crate::git`, an external collaborator consumed
  through a capability interface) becomes an oracle structure of pure
  functions returning `Except`;
* filesystem effects become an oracle plus an explicit event trace, so that
  frame and atomicity properties ("nothing else was deleted", "metadata is
  written only after every attach") can be stated about the trace;
* `anyhow::Result` becomes `Except String`; `bail` and error-context wrapping
  become string building with `++`, mirroring the exact format strings.

Every lifecycle function (`create`, `add_repos`, `remove`, `add_worktree`,
`validate_name`, metadata (de)serialization) is translated line by line from
`src/workspace.rs`.
-/

namespace Ws

/-- A filesystem path, as its list of components (`PathBuf.join` is `++`). -/
abbrev Path := List String

/-- Modelled from the spec: the Identity Resolver (`giturl.rs`) is not among
the analyzed sources; the spec defines an Identity as the canonical string
`host/owner/repo`. -/
structure Parsed where
  host : String
  owner : String
  repo : String
deriving DecidableEq, Repr

/-- Modelled from the spec: canonical identity string `host/owner/repo`. -/
def Parsed.identity (p : Parsed) : String :=
  p.host ++ "/" ++ p.owner ++ "/" ++ p.repo

/-- Modelled from the spec: parsing a canonical `host/owner/repo` identity
string into its three components; anything else is an `IdentityParseError`. -/
def Parsed.from_identity (s : String) : Except String Parsed :=
  match s.toList.splitOn '/' with
  | [h, o, r] =>
    if h.isEmpty || o.isEmpty || r.isEmpty then
      .error ("invalid identity: " ++ s)
    else
      .ok ⟨String.mk h, String.mk o, String.mk r⟩
  | _ => .error ("invalid identity: " ++ s)

/-- Modelled from the spec (§6): the mirror path of an identity is
`<host>/<owner>/<repo>.git` below the mirrors root (confirmed by the
`test_dir` unit test of `mirror.rs`). -/
def Parsed.mirror_path (p : Parsed) : Path :=
  [p.host, p.owner, p.repo ++ ".git"]

/-- Process-wide configuration (`config.rs`): the two filesystem roots,
each of which may fail to resolve (no home directory). -/
structure Env where
  mirrors_root : Except String Path
  workspaces_root : Except String Path

/-- `mirror::dir` (`mirror.rs`): mirrors root joined with the mirror path. -/
def mirrorDir (env : Env) (p : Parsed) : Except String Path :=
  match env.mirrors_root with
  | .error e => .error e
  | .ok root => .ok (root ++ p.mirror_path)

/-- `workspace::dir` (`workspace.rs`): workspaces root joined with the name. -/
def wsDir (env : Env) (name : String) : Except String Path :=
  match env.workspaces_root with
  | .error e => .error e
  | .ok root => .ok (root ++ [name])

/-- `WorkspaceRepoRef` (`workspace.rs`): the optional pinned ref of one
workspace member. -/
structure WorkspaceRepoRef where
  ref : String
deriving DecidableEq, Repr

/-- `Metadata` (`workspace.rs`). `repos` is a `BTreeMap<String,
Option<WorkspaceRepoRef>>`, embedded as an association list kept in sorted
key order (the map's iteration order); `created` is an abstract timestamp. -/
structure Metadata where
  name : String
  branch : String
  repos : List (String × Option WorkspaceRepoRef)
  created : Nat
deriving DecidableEq, Repr

/-- `BTreeMap::contains_key`. -/
def containsKey (m : List (String × Option WorkspaceRepoRef)) (k : String) : Bool :=
  m.any (fun p => p.1 = k)

/-- `BTreeMap::insert`, preserving sorted key order. -/
def insertSorted (m : List (String × Option WorkspaceRepoRef)) (k : String)
    (v : Option WorkspaceRepoRef) : List (String × Option WorkspaceRepoRef) :=
  match m with
  | [] => [(k, v)]
  | (k1, v1) :: rest =>
    if k < k1 then (k, v) :: (k1, v1) :: rest
    else if k = k1 then (k, v) :: rest
    else (k1, v1) :: insertSorted rest k v

/-- `BTreeMap` lookup. -/
def lookupKey (m : List (String × Option WorkspaceRepoRef)) (k : String) :
    Option (Option WorkspaceRepoRef) :=
  match m with
  | [] => none
  | (k1, v1) :: rest => if k1 = k then some v1 else lookupKey rest k

/-- The capability surface of the external git backend (`crate::git`),
exactly the operations `workspace.rs` calls. Queries and mutations are pure
functions of their arguments (single-operation-at-a-time model, §5). -/
structure Git where
  branch_exists : Path → String → Bool
  ref_exists : Path → String → Bool
  default_branch : Path → Except String String
  branch_is_merged : Path → String → String → Except String Bool
  fetch : Path → Except String Unit
  worktree_add : Path → Path → String → String → Except String Unit
  worktree_add_existing : Path → Path → String → Except String Unit
  worktree_add_detached : Path → Path → String → Except String Unit
  worktree_remove : Path → Path → Except String Unit
  branch_delete : Path → String → Except String Unit

/-- Outcomes of the filesystem calls `workspace.rs` makes. -/
structure Fs where
  ws_dir_exists : Path → Bool
  create_dir_ok : Path → Except String Unit
  remove_dir_ok : Path → Except String Unit
  load : Path → Except String Metadata
  save : Path → Metadata → Except String Unit

/-- One observable effect of a lifecycle operation: a backend mutation, a
filesystem mutation, or a line printed to the console. -/
inductive Event where
  | fetch (mirror : Path)
  | worktreeAddExisting (mirror : Path) (path : Path) (branchOrRef : String)
  | worktreeAddDetached (mirror : Path) (path : Path) (gitRef : String)
  | worktreeAdd (mirror : Path) (path : Path) (newBranch : String) (startPoint : String)
  | worktreeRemove (mirror : Path) (path : Path)
  | branchDelete (mirror : Path) (branch : String)
  | createDirAll (p : Path)
  | removeDirAll (p : Path)
  | saveMetadata (dir : Path) (m : Metadata)
  | warn (msg : String)
  | info (msg : String)
deriving DecidableEq, Repr

/-- The destructive events: worktree removal, branch deletion, directory
tree deletion. -/
def Event.destructive : Event → Bool
  | .worktreeRemove _ _ => true
  | .branchDelete _ _ => true
  | .removeDirAll _ => true
  | _ => false

/-- The worktree-attach events (the only mutations `add_worktree` makes). -/
def Event.isAttach : Event → Bool
  | .worktreeAddExisting _ _ _ => true
  | .worktreeAddDetached _ _ _ => true
  | .worktreeAdd _ _ _ _ => true
  | _ => false

/-- `validate_name` (`workspace.rs`). -/
def validate_name (name : String) : Except String Unit :=
  if name.isEmpty then
    .error ("workspace name cannot be empty")
  else if name.toList.contains '/' || name.toList.contains '\\' then
    .error ("workspace name cannot contain path separators")
  else if name = "." || name = ".." then
    .error ("workspace name is not allowed")
  else
    .ok ()

/-- `add_worktree` (`workspace.rs`): the four-way attach decision. -/
def add_worktree (env : Env) (git : Git) (ws_dir : Path)
    (identity branch git_ref : String) : Except String Unit × List Event :=
  match Parsed.from_identity identity with
  | .error e => (.error e, [])
  | .ok parsed =>
  match mirrorDir env parsed with
  | .error e => (.error e, [])
  | .ok mirror_dir =>
  let worktree_path := ws_dir ++ [parsed.repo]
  if git_ref.isEmpty = false then
    -- Context repo: check out at the specified ref
    if git.branch_exists mirror_dir git_ref then
      (git.worktree_add_existing mirror_dir worktree_path git_ref,
       [Event.worktreeAddExisting mirror_dir worktree_path git_ref])
    else
      let remote_ref := "refs/remotes/origin/" ++ git_ref
      if git.ref_exists mirror_dir remote_ref then
        let origin_ref := "origin/" ++ git_ref
        (git.worktree_add_existing mirror_dir worktree_path origin_ref,
         [Event.worktreeAddExisting mirror_dir worktree_path origin_ref])
      else
        -- Tag or SHA: detached HEAD
        (git.worktree_add_detached mirror_dir worktree_path git_ref,
         [Event.worktreeAddDetached mirror_dir worktree_path git_ref])
  else
    -- Active repo: create/checkout workspace branch
    if git.branch_exists mirror_dir branch then
      (git.worktree_add_existing mirror_dir worktree_path branch,
       [Event.worktreeAddExisting mirror_dir worktree_path branch])
    else
      match git.default_branch mirror_dir with
      | .error e => (.error e, [])
      | .ok default_branch =>
        let start_point_candidate := "origin/" ++ default_branch
        let start_point :=
          if git.ref_exists mirror_dir start_point_candidate then
            start_point_candidate
          else
            default_branch
        (git.worktree_add mirror_dir worktree_path branch start_point,
         [Event.worktreeAdd mirror_dir worktree_path branch start_point])

/-- The repo map `create_inner` builds from the requested refs: an empty
ref string maps to `None` (Active), a non-empty one to a pinned ref. -/
def buildRepos (repo_refs : List (String × String)) :
    List (String × Option WorkspaceRepoRef) :=
  repo_refs.foldl
    (fun m p => insertSorted m p.1 (if p.2.isEmpty then none else some ⟨p.2⟩)) []

/-- The attach loop of `create_inner`: attach every requested identity in
order, stopping at (and context-wrapping) the first failure. -/
def attachAll (env : Env) (git : Git) (ws_dir : Path) (branch : String) :
    List (String × String) → Except String Unit × List Event
  | [] => (.ok (), [])
  | (identity, r) :: rest =>
    match add_worktree env git ws_dir identity branch r with
    | (.ok _, evs) =>
      let res := attachAll env git ws_dir branch rest
      (res.1, evs ++ res.2)
    | (.error e, evs) =>
      (.error ("adding worktree for " ++ identity ++ ": " ++ e), evs)

/-- `create_inner` (`workspace.rs`): build the metadata, attach every
requested identity, then (and only then) write the metadata file. -/
def create_inner (env : Env) (git : Git) (fsys : Fs) (now : Nat) (name : String)
    (ws_dir : Path) (repo_refs : List (String × String)) :
    Except String Unit × List Event :=
  let meta : Metadata := ⟨name, name, buildRepos repo_refs, now⟩
  match attachAll env git ws_dir name repo_refs with
  | (.ok _, evs) =>
    (fsys.save ws_dir meta, evs ++ [Event.saveMetadata ws_dir meta])
  | (.error e, evs) => (.error e, evs)

/-- `create` (`workspace.rs`): validate, refuse an existing directory,
create the directory, run `create_inner`, and on failure remove the whole
workspace directory (best effort) before propagating the error. -/
def create (env : Env) (git : Git) (fsys : Fs) (now : Nat) (name : String)
    (repo_refs : List (String × String)) : Except String Unit × List Event :=
  match validate_name name with
  | .error e => (.error e, [])
  | .ok _ =>
  match wsDir env name with
  | .error e => (.error e, [])
  | .ok ws_dir =>
  if fsys.ws_dir_exists ws_dir then
    (.error ("workspace " ++ name ++ " already exists"), [])
  else
    match fsys.create_dir_ok ws_dir with
    | .error e => (.error e, [Event.createDirAll ws_dir])
    | .ok _ =>
      match create_inner env git fsys now name ws_dir repo_refs with
      | (.ok _, evs) => (.ok (), Event.createDirAll ws_dir :: evs)
      | (.error e, evs) =>
        -- Clean up workspace dir on failure (best-effort)
        (.error e, Event.createDirAll ws_dir :: (evs ++ [Event.removeDirAll ws_dir]))

/-- The loop body of `add_repos`: skip identities already present, attach
new ones, threading the growing repo map; first attach failure aborts. -/
def addLoop (env : Env) (git : Git) (ws_dir : Path) (meta : Metadata) :
    List (String × String) → Except String Metadata × List Event
  | [] => (.ok meta, [])
  | (identity, r) :: rest =>
    if containsKey meta.repos identity then
      let res := addLoop env git ws_dir meta rest
      (res.1, Event.info (identity ++ " already in workspace, skipping") :: res.2)
    else
      match add_worktree env git ws_dir identity meta.branch r with
      | (.error e, evs) =>
        (.error ("adding worktree for " ++ identity ++ ": " ++ e), evs)
      | (.ok _, evs) =>
        let meta2 : Metadata :=
          { meta with
            repos := insertSorted meta.repos identity
              (if r.isEmpty then none else some ⟨r⟩) }
        let res := addLoop env git ws_dir meta2 rest
        (res.1, evs ++ res.2)

/-- `add_repos` (`workspace.rs`): load the metadata, run the loop, and
rewrite the metadata once at the end. -/
def add_repos (env : Env) (git : Git) (fsys : Fs) (ws_dir : Path)
    (repo_refs : List (String × String)) : Except String Unit × List Event :=
  match fsys.load ws_dir with
  | .error e => (.error e, [])
  | .ok meta =>
    match addLoop env git ws_dir meta repo_refs with
    | (.error e, evs) => (.error e, evs)
    | (.ok meta2, evs) =>
      (fsys.save ws_dir meta2, evs ++ [Event.saveMetadata ws_dir meta2])

/-- One element of `remove`'s `active_repos` vector. -/
structure ActiveRepo where
  identity : String
  parsed : Parsed
  mirror_dir : Path
  fetch_failed : Bool
deriving DecidableEq, Repr

/-- `Except.isOk` as `workspace.rs` uses `is_err()` on fetch results. -/
def isErrE (e : Except String Unit) : Bool :=
  match e with
  | .error _ => true
  | .ok _ => false

/-- `remove`'s entry predicate: an entry is Active when it is `None` or its
ref string is empty. -/
def isActiveEntry : Option WorkspaceRepoRef → Bool
  | none => true
  | some re => re.ref.isEmpty

/-- `remove`'s first loop: partition the metadata's repos into Active repos
(best-effort fetching each mirror first) and Context repos, skipping (with a
warning) entries that fail to parse or whose mirror cannot be resolved. -/
def partitionRepos (env : Env) (git : Git) :
    List (String × Option WorkspaceRepoRef) →
    List ActiveRepo × List (Parsed × Path) × List Event
  | [] => ([], [], [])
  | (identity, entry) :: rest =>
    match Parsed.from_identity identity with
    | .error _ =>
      let r := partitionRepos env git rest
      (r.1, r.2.1,
       Event.warn ("warning: cannot parse " ++ identity ++ ", skipping worktree cleanup")
         :: r.2.2)
    | .ok parsed =>
      match mirrorDir env parsed with
      | .error e =>
        let r := partitionRepos env git rest
        (r.1, r.2.1,
         Event.warn ("warning: cannot resolve mirror for " ++ identity ++ ": " ++ e)
           :: r.2.2)
      | .ok mirror_dir =>
        if isActiveEntry entry then
          -- Best-effort fetch to detect remote merges
          let fetch_failed := isErrE (git.fetch mirror_dir)
          let fevs :=
            Event.fetch mirror_dir ::
              (if fetch_failed then
                [Event.warn ("warning: fetch failed for " ++ identity ++ ", using local data")]
              else [])
          let r := partitionRepos env git rest
          (⟨identity, parsed, mirror_dir, fetch_failed⟩ :: r.1, r.2.1, fevs ++ r.2.2)
        else
          let r := partitionRepos env git rest
          (r.1, (parsed, mirror_dir) :: r.2.1, r.2.2)

/-- `remove`'s pre-flight loop (run only without `force`): collect the
Active repos whose shared branch still exists and is not merged into the
mirror's default branch. A repo whose default branch cannot be detected is
skipped with a warning; a merge-check error counts as not merged. -/
def computeUnmerged (git : Git) (branch : String) :
    List ActiveRepo → List (String × Bool) × List Event
  | [] => ([], [])
  | ar :: rest =>
    if git.branch_exists ar.mirror_dir branch = false then
      computeUnmerged git branch rest  -- branch already gone, nothing to check
    else
      match git.default_branch ar.mirror_dir with
      | .error e =>
        let r := computeUnmerged git branch rest
        (r.1,
         Event.warn ("warning: cannot detect default branch for " ++ ar.identity ++ ": " ++ e)
           :: r.2)
      | .ok default_branch =>
        let merged :=
          match git.branch_is_merged ar.mirror_dir branch default_branch with
          | .ok b => b
          | .error _ => false
        let r := computeUnmerged git branch rest
        if merged then r
        else ((ar.identity, ar.fetch_failed) :: r.1, r.2)

/-- One line of the unmerged-branches report. -/
def unmergedItem (repo : String) (fetch_failed : Bool) : String :=
  "\n  - " ++ repo ++
    (if fetch_failed then " (fetch failed, local data may be stale)" else "")

/-- The list part of the unmerged-branches report, built left to right. -/
def unmergedListStr (l : List (String × Bool)) : String :=
  l.foldl (fun acc p => acc ++ unmergedItem p.1 p.2) ""

/-- The full error message `remove` bails with at the merge gate. -/
def unmergedMsg (name branch : String) (l : List (String × Bool)) : String :=
  "workspace " ++ name ++ " has unmerged branches (" ++ branch ++ "):" ++
    unmergedListStr l ++ "\n\nUse --force to remove anyway" ++
    (if l.any (fun p => p.2) then
      "\n\nNote: some fetches failed; the branch may already be merged remotely"
    else "")

/-- Pass 2 of `remove`, worktree removal for Active repos: best effort,
each failure downgraded to a warning. -/
def removeActiveWorktrees (git : Git) (ws_dir : Path) :
    List ActiveRepo → List Event
  | [] => []
  | ar :: rest =>
    let p := ws_dir ++ [ar.parsed.repo]
    Event.worktreeRemove ar.mirror_dir p ::
      ((match git.worktree_remove ar.mirror_dir p with
        | .ok _ => []
        | .error e =>
          [Event.warn ("warning: removing worktree for " ++ ar.identity ++ ": " ++ e)]) ++
       removeActiveWorktrees git ws_dir rest)

/-- Pass 2 of `remove`, worktree removal for Context repos: best effort,
each failure downgraded to a warning. -/
def removeContextWorktrees (git : Git) (ws_dir : Path) :
    List (Parsed × Path) → List Event
  | [] => []
  | (parsed, mirror_dir) :: rest =>
    let p := ws_dir ++ [parsed.repo]
    Event.worktreeRemove mirror_dir p ::
      ((match git.worktree_remove mirror_dir p with
        | .ok _ => []
        | .error e =>
          [Event.warn ("warning: removing worktree for " ++ parsed.repo ++ ": " ++ e)]) ++
       removeContextWorktrees git ws_dir rest)

/-- Pass 2 of `remove`, branch deletion: delete the shared branch from each
Active repo's mirror only if it still exists; failures become warnings. -/
def deleteBranches (git : Git) (branch : String) : List ActiveRepo → List Event
  | [] => []
  | ar :: rest =>
    if git.branch_exists ar.mirror_dir branch then
      Event.branchDelete ar.mirror_dir branch ::
        ((match git.branch_delete ar.mirror_dir branch with
          | .ok _ => []
          | .error e =>
            [Event.warn ("warning: deleting branch " ++ branch ++ " in " ++
              ar.identity ++ ": " ++ e)]) ++
         deleteBranches git branch rest)
    else
      deleteBranches git branch rest

/-- The whole of pass 2 of `remove`: worktrees, then branches, then the
workspace directory tree (whose removal result is the operation's result). -/
def removalPass (git : Git) (fsys : Fs) (ws_dir : Path) (branch : String)
    (actives : List ActiveRepo) (ctxs : List (Parsed × Path)) :
    Except String Unit × List Event :=
  (fsys.remove_dir_ok ws_dir,
   removeActiveWorktrees git ws_dir actives ++
     removeContextWorktrees git ws_dir ctxs ++
     deleteBranches git branch actives ++ [Event.removeDirAll ws_dir])

/-- `remove` (`workspace.rs`): load metadata, partition repos (fetching
Active mirrors best-effort), enforce the merge gate unless forced, then run
the best-effort removal pass. -/
def remove (env : Env) (git : Git) (fsys : Fs) (name : String) (force : Bool) :
    Except String Unit × List Event :=
  match wsDir env name with
  | .error e => (.error e, [])
  | .ok ws_dir =>
  match fsys.load ws_dir with
  | .error e => (.error ("reading workspace metadata: " ++ e), [])
  | .ok meta =>
  let part := partitionRepos env git meta.repos
  let actives := part.1
  let ctxs := part.2.1
  let pevs := part.2.2
  if force then
    let pass := removalPass git fsys ws_dir meta.branch actives ctxs
    (pass.1, pevs ++ pass.2)
  else
    let um := computeUnmerged git meta.branch actives
    if um.1.isEmpty then
      let pass := removalPass git fsys ws_dir meta.branch actives ctxs
      (pass.1, pevs ++ um.2 ++ pass.2)
    else
      (.error (unmergedMsg name meta.branch um.1), pevs ++ um.2)

/-- Serialized form of one entry of the `repos` map: YAML `null` for a
`None` entry, or a mapping whose `ref` field is skipped when the string is
empty (`skip_serializing_if = String::is_empty`). -/
inductive SerEntry where
  | null
  | map (refField : Option String)
deriving DecidableEq, Repr

/-- Serde serialization of one `Option<WorkspaceRepoRef>` entry. -/
def serializeEntry : Option WorkspaceRepoRef → SerEntry
  | none => .null
  | some r => .map (if r.ref.isEmpty then none else some r.ref)

/-- Serde deserialization of one entry (`#[serde(default)]` supplies the
empty string for an absent `ref` field). -/
def deserializeEntry : SerEntry → Option WorkspaceRepoRef
  | .null => none
  | .map o => some ⟨o.getD ""⟩

/-- The serialized form of a `Metadata` value (`save_metadata`). -/
structure SerMetadata where
  name : String
  branch : String
  repos : List (String × SerEntry)
  created : Nat
deriving DecidableEq, Repr

/-- `save_metadata`'s serialization step (`serde_yml::to_string`). -/
def serializeMetadata (m : Metadata) : SerMetadata :=
  ⟨m.name, m.branch, m.repos.map (fun p => (p.1, serializeEntry p.2)), m.created⟩

/-- `load_metadata`'s deserialization step (`serde_yml::from_str`). -/
def deserializeMetadata (s : SerMetadata) : Metadata :=
  ⟨s.name, s.branch, s.repos.map (fun p => (p.1, deserializeEntry p.2)), s.created⟩

/-! Concrete fixtures used to instantiate the theorems below. -/

/-- A concrete metadata value: one Active and two Context entries. -/
def exMeta : Metadata :=
  ⟨"my-ws", "my-ws",
   [("github.com/acme/api-gateway", none),
    ("github.com/acme/proto", some ⟨"v1.0"⟩),
    ("github.com/acme/user-service", some ⟨"main"⟩)], 0⟩

/-- A concrete environment with both roots resolved. -/
def exEnv : Env :=
  ⟨.ok ["data", "ws", "mirrors"], .ok ["home", "dev", "workspaces"]⟩

/-- A concrete backend where every query succeeds and everything exists. -/
def exGit : Git :=
  ⟨fun _ _ => true, fun _ _ => true, fun _ => .ok "main", fun _ _ _ => .ok true,
   fun _ => .ok (), fun _ _ _ _ => .ok (), fun _ _ _ => .ok (), fun _ _ _ => .ok (),
   fun _ _ => .ok (), fun _ _ => .ok ()⟩

/-- A concrete filesystem oracle whose metadata file holds `exMeta`. -/
def exFs : Fs :=
  ⟨fun _ => false, fun _ => .ok (), fun _ => .ok (), fun _ => .ok exMeta,
   fun _ _ => .ok ()⟩

/-- A concrete backend whose merge check reports every branch unmerged. -/
def exGitUnmerged : Git :=
  ⟨fun _ _ => true, fun _ _ => true, fun _ => .ok "main", fun _ _ _ => .ok false,
   fun _ => .ok (), fun _ _ _ _ => .ok (), fun _ _ _ => .ok (), fun _ _ _ => .ok (),
   fun _ _ => .ok (), fun _ _ => .ok ()⟩

/-- A concrete backend that cannot detect any default branch. -/
def exGitNoDefault : Git :=
  ⟨fun _ _ => true, fun _ _ => true, fun _ => .error "no HEAD ref",
   fun _ _ _ => .ok false, fun _ => .ok (), fun _ _ _ _ => .ok (),
   fun _ _ _ => .ok (), fun _ _ _ => .ok (), fun _ _ => .ok (), fun _ _ => .ok ()⟩

/-! ### Helper lemmas -/

theorem isEmpty_false_of_ne (s : String) (h : s ≠ "") : s.isEmpty = false := by
  cases h2 : s.isEmpty
  · rfl
  · exact absurd ((String.isEmpty_iff s).mp h2) h

theorem serialize_roundtrip_entry (e : Option WorkspaceRepoRef)
    (he : e = none ∨ ∃ r, e = some r ∧ r.ref ≠ "") :
    deserializeEntry (serializeEntry e) = e := by
  rcases he with h | ⟨r, h, hr⟩
  · subst h; rfl
  · subst h
    cases r with
    | mk s =>
      simp [serializeEntry, deserializeEntry, isEmpty_false_of_ne s hr]

theorem serialize_roundtrip_repos (l : List (String × Option WorkspaceRepoRef))
    (h : ∀ p ∈ l, p.2 = none ∨ ∃ r, p.2 = some r ∧ r.ref ≠ "") :
    l.map (fun p => (p.1, deserializeEntry (serializeEntry p.2))) = l := by
  induction l with
  | nil => rfl
  | cons a t ih =>
    simp only [List.map_cons]
    rw [serialize_roundtrip_entry a.2 (h a (List.mem_cons_self a t)),
      ih (fun p hp => h p (List.mem_cons_of_mem a hp))]

theorem serializeEntry_ne_empty_ref (e : Option WorkspaceRepoRef) :
    serializeEntry e ≠ SerEntry.map (some "") := by
  cases e with
  | none => simp [serializeEntry]
  | some r =>
    intro h
    by_cases hr : r.ref = ""
    · have he : r.ref.isEmpty = true := by rw [hr]; rfl
      simp [serializeEntry, he] at h
    · have he := isEmpty_false_of_ne r.ref hr
      simp [serializeEntry, he] at h
      exact hr h

theorem add_worktree_events (env : Env) (git : Git) (ws_dir : Path)
    (identity branch git_ref : String) :
    ∀ ev ∈ (add_worktree env git ws_dir identity branch git_ref).2,
      ev.isAttach = true := by
  intro ev hev
  unfold add_worktree at hev
  cases hpi : Parsed.from_identity identity with
  | error e => simp [hpi] at hev
  | ok parsed =>
    simp only [hpi] at hev
    cases hmd : mirrorDir env parsed with
    | error e => simp [hmd] at hev
    | ok md =>
      simp only [hmd] at hev
      split at hev
      · split at hev
        · simp at hev; subst hev; rfl
        · split at hev
          · simp at hev; subst hev; rfl
          · simp at hev; subst hev; rfl
      · split at hev
        · simp at hev; subst hev; rfl
        · split at hev
          · simp at hev
          · simp at hev; subst hev; rfl

theorem attach_event_class (ev : Event) (h : ev.isAttach = true) :
    (∀ d m, ev ≠ Event.saveMetadata d m) ∧ ev.destructive = false := by
  cases ev <;> simp [Event.isAttach] at h <;> simp [Event.destructive]

theorem mem_insertSorted_self (m : List (String × Option WorkspaceRepoRef))
    (k : String) (v : Option WorkspaceRepoRef) : (k, v) ∈ insertSorted m k v := by
  induction m with
  | nil => exact List.mem_singleton.mpr rfl
  | cons a t ih =>
    obtain ⟨k1, v1⟩ := a
    rw [insertSorted]
    by_cases h1 : k < k1
    · rw [if_pos h1]; exact List.mem_cons_self _ _
    · rw [if_neg h1]
      by_cases h2 : k = k1
      · rw [if_pos h2]; exact List.mem_cons_self _ _
      · rw [if_neg h2]; exact List.mem_cons_of_mem _ ih

theorem mem_insertSorted_of_mem (m : List (String × Option WorkspaceRepoRef))
    (k : String) (v : Option WorkspaceRepoRef)
    (p : String × Option WorkspaceRepoRef) (hp : p ∈ m) (hne : p.1 ≠ k) :
    p ∈ insertSorted m k v := by
  induction m with
  | nil => cases hp
  | cons a t ih =>
    obtain ⟨k1, v1⟩ := a
    rw [insertSorted]
    by_cases h1 : k < k1
    · rw [if_pos h1]; exact List.mem_cons_of_mem _ hp
    · rw [if_neg h1]
      by_cases h2 : k = k1
      · rw [if_pos h2]
        rcases List.mem_cons.mp hp with h | h
        · exfalso; subst h; exact hne h2.symm
        · exact List.mem_cons_of_mem _ h
      · rw [if_neg h2]
        rcases List.mem_cons.mp hp with h | h
        · exact h ▸ List.mem_cons_self _ _
        · exact List.mem_cons_of_mem _ (ih h)

theorem mem_of_mem_insertSorted (m : List (String × Option WorkspaceRepoRef))
    (k : String) (v : Option WorkspaceRepoRef)
    (p : String × Option WorkspaceRepoRef) (hp : p ∈ insertSorted m k v) :
    p = (k, v) ∨ p ∈ m := by
  induction m with
  | nil =>
    rw [insertSorted] at hp
    exact Or.inl (List.mem_singleton.mp hp)
  | cons a t ih =>
    obtain ⟨k1, v1⟩ := a
    rw [insertSorted] at hp
    by_cases h1 : k < k1
    · rw [if_pos h1] at hp
      rcases List.mem_cons.mp hp with h | h
      · exact Or.inl h
      · exact Or.inr h
    · rw [if_neg h1] at hp
      by_cases h2 : k = k1
      · rw [if_pos h2] at hp
        rcases List.mem_cons.mp hp with h | h
        · exact Or.inl h
        · exact Or.inr (List.mem_cons_of_mem _ h)
      · rw [if_neg h2] at hp
        rcases List.mem_cons.mp hp with h | h
        · exact Or.inr (h ▸ List.mem_cons_self _ _)
        · rcases ih h with h3 | h3
          · exact Or.inl h3
          · exact Or.inr (List.mem_cons_of_mem _ h3)

theorem containsKey_iff (m : List (String × Option WorkspaceRepoRef)) (k : String) :
    containsKey m k = true ↔ ∃ p ∈ m, p.1 = k := by
  simp [containsKey, List.any_eq_true]

theorem containsKey_insertSorted_mono (m : List (String × Option WorkspaceRepoRef))
    (k k2 : String) (v : Option WorkspaceRepoRef)
    (h : containsKey m k2 = true) : containsKey (insertSorted m k v) k2 = true := by
  rcases (containsKey_iff m k2).mp h with ⟨p, hp, hk⟩
  by_cases hne : p.1 = k
  · exact (containsKey_iff _ k2).mpr ⟨(k, v), mem_insertSorted_self m k v, by rw [← hne, hk]⟩
  · exact (containsKey_iff _ k2).mpr ⟨p, mem_insertSorted_of_mem m k v p hp hne, hk⟩

theorem containsKey_of_insertSorted (m : List (String × Option WorkspaceRepoRef))
    (k k2 : String) (v : Option WorkspaceRepoRef)
    (h : containsKey (insertSorted m k v) k2 = true) :
    containsKey m k2 = true ∨ k2 = k := by
  rcases (containsKey_iff _ k2).mp h with ⟨p, hp, hk⟩
  rcases mem_of_mem_insertSorted m k v p hp with h1 | h1
  · exact Or.inr (by rw [← hk, h1])
  · exact Or.inl ((containsKey_iff m k2).mpr ⟨p, h1, hk⟩)

theorem lookupKey_insertSorted_ne (m : List (String × Option WorkspaceRepoRef))
    (k k2 : String) (v : Option WorkspaceRepoRef) (hne : k ≠ k2) :
    lookupKey (insertSorted m k v) k2 = lookupKey m k2 := by
  induction m with
  | nil =>
    rw [insertSorted]
    simp only [lookupKey]
    rw [if_neg hne]
  | cons a t ih =>
    obtain ⟨k1, v1⟩ := a
    rw [insertSorted]
    by_cases h1 : k < k1
    · rw [if_pos h1]
      simp only [lookupKey]
      rw [if_neg hne]
    · rw [if_neg h1]
      by_cases h2 : k = k1
      · rw [if_pos h2]
        simp only [lookupKey]
        have h4 : ¬ k1 = k2 := fun hh => hne (h2.symm ▸ hh)
        rw [if_neg hne, if_neg h4]
      · rw [if_neg h2]
        simp only [lookupKey]
        by_cases h3 : k1 = k2
        · rw [if_pos h3, if_pos h3]
        · rw [if_neg h3, if_neg h3, ih]

/-- Every event `addLoop` emits is a worktree attach or a skip report. -/
theorem addLoop_events (env : Env) (git : Git) (ws_dir : Path) :
    ∀ (l : List (String × String)) (meta : Metadata),
      ∀ ev ∈ (addLoop env git ws_dir meta l).2,
        ev.isAttach = true ∨ ∃ msg, ev = Event.info msg
  | [], meta, ev, hev => by rw [addLoop] at hev; cases hev
  | (identity, r) :: rest, meta, ev, hev => by
    rw [addLoop] at hev
    by_cases hc : containsKey meta.repos identity = true
    · rw [if_pos hc] at hev
      simp only [] at hev
      rcases List.mem_cons.mp hev with h | h
      · exact Or.inr ⟨_, h⟩
      · exact addLoop_events env git ws_dir rest meta ev h
    · rw [if_neg hc] at hev
      cases haw : add_worktree env git ws_dir identity meta.branch r with
      | mk res evs =>
        rw [haw] at hev
        cases res with
        | error e =>
          exact Or.inl (add_worktree_events env git ws_dir identity meta.branch r ev
            (by rw [haw]; exact hev))
        | ok u =>
          simp only [] at hev
          rcases List.mem_append.mp hev with h | h
          · exact Or.inl (add_worktree_events env git ws_dir identity meta.branch r ev
              (by rw [haw]; exact h))
          · exact addLoop_events env git ws_dir rest _ ev h

/-- `addLoop` on a list of already-present identities changes nothing and
only reports skips. -/
theorem addLoop_skip_all (env : Env) (git : Git) (ws_dir : Path) :
    ∀ (l : List (String × String)) (meta : Metadata),
      (∀ p ∈ l, containsKey meta.repos p.1 = true) →
      addLoop env git ws_dir meta l =
        (.ok meta, l.map (fun p => Event.info (p.1 ++ " already in workspace, skipping")))
  | [], meta, _ => by rw [addLoop]; rfl
  | (identity, r) :: rest, meta, h => by
    have hc : containsKey meta.repos identity = true :=
      h (identity, r) (List.mem_cons_self _ _)
    rw [addLoop, if_pos hc, addLoop_skip_all env git ws_dir rest meta
      (fun p hp => h p (List.mem_cons_of_mem _ hp))]
    rfl

/-- `addLoop` preserves the name and branch; it only grows the repo map
with requested keys and never changes the entry of a present key. -/
theorem addLoop_ok_shape (env : Env) (git : Git) (ws_dir : Path) :
    ∀ (l : List (String × String)) (meta meta2 : Metadata) (evs : List Event),
      addLoop env git ws_dir meta l = (.ok meta2, evs) →
      meta2.branch = meta.branch ∧ meta2.name = meta.name ∧
      (∀ k, containsKey meta.repos k = true → containsKey meta2.repos k = true) ∧
      (∀ k, containsKey meta2.repos k = true →
        containsKey meta.repos k = true ∨ ∃ p ∈ l, p.1 = k) ∧
      (∀ k, containsKey meta.repos k = true →
        lookupKey meta2.repos k = lookupKey meta.repos k)
  | [], meta, meta2, evs, h => by
    rw [addLoop] at h
    injection h with h1 h2
    injection h1 with h1
    subst h1
    exact ⟨rfl, rfl, fun k hk => hk, fun k hk => Or.inl hk, fun k _ => rfl⟩
  | (identity, r) :: rest, meta, meta2, evs, h => by
    rw [addLoop] at h
    by_cases hc : containsKey meta.repos identity = true
    · rw [if_pos hc] at h
      cases hrest : addLoop env git ws_dir meta rest with
      | mk res0 evs0 =>
        rw [hrest] at h
        simp only [] at h
        cases res0 with
        | error e => exact absurd (congrArg Prod.fst h) (by simp)
        | ok m0 =>
          injection h with h1 h2
          injection h1 with h1
          subst h1
          rcases addLoop_ok_shape env git ws_dir rest meta m0 evs0 hrest with
            ⟨hb, hn, hmono, hfrom, hpres⟩
          refine ⟨hb, hn, hmono, fun k hk => ?_, hpres⟩
          rcases hfrom k hk with h3 | ⟨p, hp, hk2⟩
          · exact Or.inl h3
          · exact Or.inr ⟨p, List.mem_cons_of_mem _ hp, hk2⟩
    · rw [if_neg hc] at h
      cases haw : add_worktree env git ws_dir identity meta.branch r with
      | mk res evs0 =>
        rw [haw] at h
        cases res with
        | error e => exact absurd (congrArg Prod.fst h) (by simp)
        | ok u =>
          simp only [] at h
          cases hrest : addLoop env git ws_dir
              { meta with
                repos := insertSorted meta.repos identity
                  (if r.isEmpty then none else some ⟨r⟩) } rest with
          | mk res0 evs2 =>
            rw [hrest] at h
            simp only [] at h
            cases res0 with
            | error e => exact absurd (congrArg Prod.fst h) (by simp)
            | ok m0 =>
              injection h with h1 h2
              injection h1 with h1
              subst h1
              rcases addLoop_ok_shape env git ws_dir rest _ m0 evs2 hrest with
                ⟨hb, hn, hmono, hfrom, hpres⟩
              refine ⟨hb, hn, ?_, ?_, ?_⟩
              · intro k hk
                exact hmono k (containsKey_insertSorted_mono meta.repos identity k _ hk)
              · intro k hk
                rcases hfrom k hk with h3 | ⟨p, hp, hk2⟩
                · rcases containsKey_of_insertSorted meta.repos identity k _ h3 with h4 | h4
                  · exact Or.inl h4
                  · exact Or.inr ⟨(identity, r), List.mem_cons_self _ _, h4.symm⟩
                · exact Or.inr ⟨p, List.mem_cons_of_mem _ hp, hk2⟩
              · intro k hk
                have hne : identity ≠ k := by
                  intro heq
                  rw [heq] at hc
                  exact hc hk
                rw [hpres k (containsKey_insertSorted_mono meta.repos identity k _ hk)]
                exact lookupKey_insertSorted_ne meta.repos identity k _ hne

/-- Every attach event `addLoop` emits comes from attaching a requested
identity that was not already present. -/
theorem addLoop_attach_origin (env : Env) (git : Git) (ws_dir : Path) :
    ∀ (l : List (String × String)) (meta : Metadata),
      ∀ ev ∈ (addLoop env git ws_dir meta l).2, ev.isAttach = true →
        ∃ p ∈ l, containsKey meta.repos p.1 = false ∧
          ev ∈ (add_worktree env git ws_dir p.1 meta.branch p.2).2
  | [], meta, ev, hev, _ => by rw [addLoop] at hev; cases hev
  | (identity, r) :: rest, meta, ev, hev, hatt => by
    rw [addLoop] at hev
    by_cases hc : containsKey meta.repos identity = true
    · rw [if_pos hc] at hev
      simp only [] at hev
      rcases List.mem_cons.mp hev with h | h
      · subst h; simp [Event.isAttach] at hatt
      · rcases addLoop_attach_origin env git ws_dir rest meta ev h hatt with ⟨p, hp, hk, hin⟩
        exact ⟨p, List.mem_cons_of_mem _ hp, hk, hin⟩
    · rw [if_neg hc] at hev
      have hcf : containsKey meta.repos identity = false := by
        cases hx : containsKey meta.repos identity
        · rfl
        · exact absurd hx hc
      cases haw : add_worktree env git ws_dir identity meta.branch r with
      | mk res evs0 =>
        rw [haw] at hev
        cases res with
        | error e =>
          exact ⟨(identity, r), List.mem_cons_self _ _, hcf, by rw [haw]; exact hev⟩
        | ok u =>
          simp only [] at hev
          rcases List.mem_append.mp hev with h | h
          · exact ⟨(identity, r), List.mem_cons_self _ _, hcf, by rw [haw]; exact h⟩
          · rcases addLoop_attach_origin env git ws_dir rest
              { meta with
                repos := insertSorted meta.repos identity
                  (if r.isEmpty then none else some ⟨r⟩) } ev h hatt with ⟨p, hp, hk, hin⟩
            refine ⟨p, List.mem_cons_of_mem _ hp, ?_, hin⟩
            cases h2 : containsKey meta.repos p.1
            · rfl
            · have h3 := containsKey_insertSorted_mono meta.repos identity p.1
                (if r.isEmpty then none else some ⟨r⟩) h2
              have hk3 : containsKey (insertSorted meta.repos identity
                  (if r.isEmpty then none else some ⟨r⟩)) p.1 = false := hk
              rw [h3] at hk3
              exact absurd hk3 (by decide)

/-- If every element of a list either attaches cleanly or is already
present, `addLoop` gets through it without an error. -/
theorem addLoop_ok_of (env : Env) (git : Git) (ws_dir : Path) :
    ∀ (l : List (String × String)) (meta : Metadata),
      (∀ p ∈ l, (add_worktree env git ws_dir p.1 meta.branch p.2).1 = .ok () ∨
        containsKey meta.repos p.1 = true) →
      ∃ meta2 evs, addLoop env git ws_dir meta l = (.ok meta2, evs)
  | [], meta, _ => ⟨meta, [], by rw [addLoop]⟩
  | (identity, r) :: rest, meta, h => by
    rw [addLoop]
    by_cases hc : containsKey meta.repos identity = true
    · rw [if_pos hc]
      rcases addLoop_ok_of env git ws_dir rest meta
        (fun p hp => h p (List.mem_cons_of_mem _ hp)) with ⟨meta2, evs, hl⟩
      exact ⟨meta2, Event.info (identity ++ " already in workspace, skipping") :: evs,
        by simp [hl]⟩
    · rw [if_neg hc]
      rcases h (identity, r) (List.mem_cons_self _ _) with hok | hpresent
      · cases haw : add_worktree env git ws_dir identity meta.branch r with
        | mk res evs0 =>
          cases res with
          | error e => rw [haw] at hok; exact absurd hok (by simp)
          | ok u =>
            rcases addLoop_ok_of env git ws_dir rest
              { meta with
                repos := insertSorted meta.repos identity
                  (if r.isEmpty then none else some ⟨r⟩) }
              (fun p hp => by
                rcases h p (List.mem_cons_of_mem _ hp) with h1 | h1
                · exact Or.inl h1
                · exact Or.inr
                    (containsKey_insertSorted_mono meta.repos identity p.1 _ h1)) with
              ⟨meta2, evs, hl⟩
            exact ⟨meta2, evs0 ++ evs, by simp [hl]⟩
      · exact absurd hpresent hc

/-- Running `addLoop` on an appended list first runs the prefix. -/
theorem addLoop_append (env : Env) (git : Git) (ws_dir : Path) :
    ∀ (l1 l2 : List (String × String)) (meta meta1 : Metadata) (evs1 : List Event),
      addLoop env git ws_dir meta l1 = (.ok meta1, evs1) →
      addLoop env git ws_dir meta (l1 ++ l2) =
        ((addLoop env git ws_dir meta1 l2).1,
         evs1 ++ (addLoop env git ws_dir meta1 l2).2)
  | [], l2, meta, meta1, evs1, h => by
    rw [addLoop] at h
    injection h with h1 h2
    injection h1 with h1
    subst h1; subst h2
    simp
  | (identity, r) :: rest, l2, meta, meta1, evs1, h => by
    rw [addLoop] at h
    rw [List.cons_append, addLoop]
    by_cases hc : containsKey meta.repos identity = true
    · rw [if_pos hc] at h ⊢
      cases hrest : addLoop env git ws_dir meta rest with
      | mk res0 evs0 =>
        rw [hrest] at h
        simp only [] at h
        cases res0 with
        | error e => exact absurd (congrArg Prod.fst h) (by simp)
        | ok m0 =>
          injection h with h1 h2
          injection h1 with h1
          subst h2
          rw [← h1]
          rw [addLoop_append env git ws_dir rest l2 meta m0 evs0 hrest]
          simp
    · rw [if_neg hc] at h ⊢
      cases haw : add_worktree env git ws_dir identity meta.branch r with
      | mk res evs0 =>
        rw [haw] at h
        cases res with
        | error e => exact absurd (congrArg Prod.fst h) (by simp)
        | ok u =>
          simp only [] at h ⊢
          cases hrest : addLoop env git ws_dir
              { meta with
                repos := insertSorted meta.repos identity
                  (if r.isEmpty then none else some ⟨r⟩) } rest with
          | mk res0 evs2 =>
            rw [hrest] at h
            simp only [] at h
            cases res0 with
            | error e => exact absurd (congrArg Prod.fst h) (by simp)
            | ok m0 =>
              injection h with h1 h2
              injection h1 with h1
              subst h2
              rw [← h1]
              rw [addLoop_append env git ws_dir rest l2 _ m0 evs2 hrest]
              simp


/-- Every event the partition loop emits is a fetch or a warning. -/
theorem partition_events (env : Env) (git : Git) :
    ∀ (repos : List (String × Option WorkspaceRepoRef)),
      ∀ ev ∈ (partitionRepos env git repos).2.2,
        (∃ m, ev = Event.fetch m) ∨ ∃ s, ev = Event.warn s
  | [], ev, hev => by rw [partitionRepos] at hev; cases hev
  | (identity, entry) :: rest, ev, hev => by
    rw [partitionRepos] at hev
    cases hpi : Parsed.from_identity identity with
    | error e =>
      rw [hpi] at hev
      simp only [] at hev
      rcases List.mem_cons.mp hev with h | h
      · exact Or.inr ⟨_, h⟩
      · exact partition_events env git rest ev h
    | ok parsed =>
      rw [hpi] at hev
      simp only [] at hev
      cases hmd : mirrorDir env parsed with
      | error e =>
        rw [hmd] at hev
        simp only [] at hev
        rcases List.mem_cons.mp hev with h | h
        · exact Or.inr ⟨_, h⟩
        · exact partition_events env git rest ev h
      | ok md =>
        rw [hmd] at hev
        simp only [] at hev
        by_cases ha : isActiveEntry entry = true
        · rw [if_pos ha] at hev
          simp only [] at hev
          rcases List.mem_append.mp hev with h | h
          · rcases List.mem_cons.mp h with h2 | h2
            · exact Or.inl ⟨_, h2⟩
            · split at h2
              · exact Or.inr ⟨_, List.mem_singleton.mp h2⟩
              · cases h2
          · exact partition_events env git rest ev h
        · rw [if_neg ha] at hev
          exact partition_events env git rest ev hev

/-- An Active entry of the metadata that parses and whose mirror resolves
lands in the partition's Active list, with the fetch outcome recorded. -/
theorem partition_active_mem (env : Env) (git : Git) :
    ∀ (repos : List (String × Option WorkspaceRepoRef))
      (identity : String) (entry : Option WorkspaceRepoRef)
      (parsed : Parsed) (md : Path),
      (identity, entry) ∈ repos → isActiveEntry entry = true →
      Parsed.from_identity identity = .ok parsed →
      mirrorDir env parsed = .ok md →
      (⟨identity, parsed, md, isErrE (git.fetch md)⟩ : ActiveRepo) ∈
        (partitionRepos env git repos).1
  | [], identity, entry, parsed, md, hmem, _, _, _ => by cases hmem
  | (id0, e0) :: rest, identity, entry, parsed, md, hmem, hact, hp, hm => by
    rw [partitionRepos]
    rcases List.mem_cons.mp hmem with h | h
    · injection h with h1 h2
      subst h1
      subst h2
      rw [hp]
      simp only []
      rw [hm]
      simp only []
      rw [if_pos hact]
      exact List.mem_cons_self _ _
    · have ih := partition_active_mem env git rest identity entry parsed md h hact hp hm
      cases hpi : Parsed.from_identity id0 with
      | error e => exact ih
      | ok parsed0 =>
        simp only []
        cases hmd : mirrorDir env parsed0 with
        | error e => exact ih
        | ok md0 =>
          simp only []
          by_cases ha0 : isActiveEntry e0 = true
          · rw [if_pos ha0]
            exact List.mem_cons_of_mem _ ih
          · rw [if_neg ha0]
            exact ih

/-- Every element of the partition's Active list comes from an Active
metadata entry with that identity, parse result, mirror and fetch flag. -/
theorem partition_active_origin (env : Env) (git : Git) :
    ∀ (repos : List (String × Option WorkspaceRepoRef)) (ar : ActiveRepo),
      ar ∈ (partitionRepos env git repos).1 →
      ∃ entry, (ar.identity, entry) ∈ repos ∧ isActiveEntry entry = true ∧
        Parsed.from_identity ar.identity = .ok ar.parsed ∧
        mirrorDir env ar.parsed = .ok ar.mirror_dir ∧
        ar.fetch_failed = isErrE (git.fetch ar.mirror_dir)
  | [], ar, hmem => by rw [partitionRepos] at hmem; cases hmem
  | (id0, e0) :: rest, ar, hmem => by
    rw [partitionRepos] at hmem
    cases hpi : Parsed.from_identity id0 with
    | error e =>
      rw [hpi] at hmem
      simp only [] at hmem
      rcases partition_active_origin env git rest ar hmem with ⟨entry, h1, h⟩
      exact ⟨entry, List.mem_cons_of_mem _ h1, h⟩
    | ok parsed0 =>
      rw [hpi] at hmem
      simp only [] at hmem
      cases hmd : mirrorDir env parsed0 with
      | error e =>
        rw [hmd] at hmem
        simp only [] at hmem
        rcases partition_active_origin env git rest ar hmem with ⟨entry, h1, h⟩
        exact ⟨entry, List.mem_cons_of_mem _ h1, h⟩
      | ok md0 =>
        rw [hmd] at hmem
        simp only [] at hmem
        by_cases ha0 : isActiveEntry e0 = true
        · rw [if_pos ha0] at hmem
          simp only [] at hmem
          rcases List.mem_cons.mp hmem with h | h
          · subst h
            exact ⟨e0, List.mem_cons_self _ _, ha0, hpi, hmd, rfl⟩
          · rcases partition_active_origin env git rest ar h with ⟨entry, h1, hrest⟩
            exact ⟨entry, List.mem_cons_of_mem _ h1, hrest⟩
        · rw [if_neg ha0] at hmem
          rcases partition_active_origin env git rest ar hmem with ⟨entry, h1, h⟩
          exact ⟨entry, List.mem_cons_of_mem _ h1, h⟩

/-- Every element of the partition's Context list comes from a non-Active
metadata entry with that parse result and mirror. -/
theorem partition_context_origin (env : Env) (git : Git) :
    ∀ (repos : List (String × Option WorkspaceRepoRef)) (pc : Parsed × Path),
      pc ∈ (partitionRepos env git repos).2.1 →
      ∃ id entry, (id, entry) ∈ repos ∧ isActiveEntry entry = false ∧
        Parsed.from_identity id = .ok pc.1 ∧ mirrorDir env pc.1 = .ok pc.2
  | [], pc, hmem => by rw [partitionRepos] at hmem; cases hmem
  | (id0, e0) :: rest, pc, hmem => by
    rw [partitionRepos] at hmem
    cases hpi : Parsed.from_identity id0 with
    | error e =>
      rw [hpi] at hmem
      simp only [] at hmem
      rcases partition_context_origin env git rest pc hmem with ⟨id, entry, h1, h⟩
      exact ⟨id, entry, List.mem_cons_of_mem _ h1, h⟩
    | ok parsed0 =>
      rw [hpi] at hmem
      simp only [] at hmem
      cases hmd : mirrorDir env parsed0 with
      | error e =>
        rw [hmd] at hmem
        simp only [] at hmem
        rcases partition_context_origin env git rest pc hmem with ⟨id, entry, h1, h⟩
        exact ⟨id, entry, List.mem_cons_of_mem _ h1, h⟩
      | ok md0 =>
        rw [hmd] at hmem
        simp only [] at hmem
        by_cases ha0 : isActiveEntry e0 = true
        · rw [if_pos ha0] at hmem
          simp only [] at hmem
          rcases partition_context_origin env git rest pc hmem with ⟨id, entry, h1, h⟩
          exact ⟨id, entry, List.mem_cons_of_mem _ h1, h⟩
        · rw [if_neg ha0] at hmem
          simp only [] at hmem
          rcases List.mem_cons.mp hmem with h | h
          · subst h
            have ha0f : isActiveEntry e0 = false := by
              cases hx : isActiveEntry e0
              · rfl
              · exact absurd hx ha0
            exact ⟨id0, e0, List.mem_cons_self _ _, ha0f, hpi, hmd⟩
          · rcases partition_context_origin env git rest pc h with ⟨id, entry, h1, hrest⟩
            exact ⟨id, entry, List.mem_cons_of_mem _ h1, hrest⟩

/-- An Active repo whose branch still exists, whose default branch resolves
and whose merge check does not report merged lands in the unmerged list. -/
theorem unmerged_mem (git : Git) (branch : String) :
    ∀ (actives : List ActiveRepo) (ar : ActiveRepo), ar ∈ actives →
      git.branch_exists ar.mirror_dir branch = true →
      ∀ d, git.default_branch ar.mirror_dir = .ok d →
      (match git.branch_is_merged ar.mirror_dir branch d with
        | .ok b => b | .error _ => false) = false →
      (ar.identity, ar.fetch_failed) ∈ (computeUnmerged git branch actives).1
  | [], ar, hmem, _, _, _, _ => by cases hmem
  | a0 :: rest, ar, hmem, hbe, d, hd, hmg => by
    rw [computeUnmerged]
    rcases List.mem_cons.mp hmem with h | h
    · subst h
      rw [hbe]
      rw [if_neg (by simp)]
      rw [hd]
      simp only [hmg]
      rw [if_neg (by simp)]
      exact List.mem_cons_self _ _
    · have ih := unmerged_mem git branch rest ar h hbe d hd hmg
      by_cases hb0 : git.branch_exists a0.mirror_dir branch = false
      · rw [if_pos hb0]
        exact ih
      · rw [if_neg hb0]
        cases hd0 : git.default_branch a0.mirror_dir with
        | error e => exact ih
        | ok d0 =>
          simp only []
          split
          · exact ih
          · exact List.mem_cons_of_mem _ ih

/-- Every element of the unmerged list comes from an Active repo whose
branch exists, whose default branch resolved and whose merge check did not
report merged. -/
theorem unmerged_origin (git : Git) (branch : String) :
    ∀ (actives : List ActiveRepo) (p : String × Bool),
      p ∈ (computeUnmerged git branch actives).1 →
      ∃ ar ∈ actives, p = (ar.identity, ar.fetch_failed) ∧
        git.branch_exists ar.mirror_dir branch = true ∧
        ∃ d, git.default_branch ar.mirror_dir = .ok d ∧
          (match git.branch_is_merged ar.mirror_dir branch d with
            | .ok b => b | .error _ => false) = false
  | [], p, hmem => by rw [computeUnmerged] at hmem; cases hmem
  | a0 :: rest, p, hmem => by
    rw [computeUnmerged] at hmem
    by_cases hb0 : git.branch_exists a0.mirror_dir branch = false
    · rw [if_pos hb0] at hmem
      rcases unmerged_origin git branch rest p hmem with ⟨ar, h1, h⟩
      exact ⟨ar, List.mem_cons_of_mem _ h1, h⟩
    · rw [if_neg hb0] at hmem
      have hb0t : git.branch_exists a0.mirror_dir branch = true := by
        cases hx : git.branch_exists a0.mirror_dir branch
        · exact absurd hx hb0
        · rfl
      cases hd0 : git.default_branch a0.mirror_dir with
      | error e =>
        rw [hd0] at hmem
        simp only [] at hmem
        rcases unmerged_origin git branch rest p hmem with ⟨ar, h1, h⟩
        exact ⟨ar, List.mem_cons_of_mem _ h1, h⟩
      | ok d0 =>
        rw [hd0] at hmem
        simp only [] at hmem
        split at hmem
        · rcases unmerged_origin git branch rest p hmem with ⟨ar, h1, h⟩
          exact ⟨ar, List.mem_cons_of_mem _ h1, h⟩
        · rename_i hm
          simp only [] at hmem
          rcases List.mem_cons.mp hmem with h | h
          · subst h
            refine ⟨a0, List.mem_cons_self _ _, rfl, hb0t, d0, hd0, ?_⟩
            cases hx : (match git.branch_is_merged a0.mirror_dir branch d0 with
              | .ok b => b | .error _ => false)
            · rfl
            · exact absurd hx hm
          · rcases unmerged_origin git branch rest p h with ⟨ar, h1, hrest⟩
            exact ⟨ar, List.mem_cons_of_mem _ h1, hrest⟩

/-- The pre-flight merge check only emits warnings. -/
theorem unmerged_events (git : Git) (branch : String) :
    ∀ (actives : List ActiveRepo),
      ∀ ev ∈ (computeUnmerged git branch actives).2, ∃ s, ev = Event.warn s
  | [], ev, hev => by rw [computeUnmerged] at hev; cases hev
  | a0 :: rest, ev, hev => by
    rw [computeUnmerged] at hev
    by_cases hb0 : git.branch_exists a0.mirror_dir branch = false
    · rw [if_pos hb0] at hev
      exact unmerged_events git branch rest ev hev
    · rw [if_neg hb0] at hev
      cases hd0 : git.default_branch a0.mirror_dir with
      | error e =>
        rw [hd0] at hev
        simp only [] at hev
        rcases List.mem_cons.mp hev with h | h
        · exact ⟨_, h⟩
        · exact unmerged_events git branch rest ev h
      | ok d0 =>
        rw [hd0] at hev
        simp only [] at hev
        split at hev
        · exact unmerged_events git branch rest ev hev
        · exact unmerged_events git branch rest ev hev

/-- An Active repo whose default branch cannot be detected produces exactly
the skip warning in the pre-flight check. -/
theorem unmerged_warn_mem (git : Git) (branch : String) :
    ∀ (actives : List ActiveRepo) (ar : ActiveRepo), ar ∈ actives →
      git.branch_exists ar.mirror_dir branch = true →
      ∀ e, git.default_branch ar.mirror_dir = .error e →
      Event.warn ("warning: cannot detect default branch for " ++ ar.identity ++ ": " ++ e) ∈
        (computeUnmerged git branch actives).2
  | [], ar, hmem, _, _, _ => by cases hmem
  | a0 :: rest, ar, hmem, hbe, e, he => by
    rw [computeUnmerged]
    rcases List.mem_cons.mp hmem with h | h
    · subst h
      rw [hbe]
      rw [if_neg (by simp)]
      rw [he]
      exact List.mem_cons_self _ _
    · have ih := unmerged_warn_mem git branch rest ar h hbe e he
      by_cases hb0 : git.branch_exists a0.mirror_dir branch = false
      · rw [if_pos hb0]
        exact ih
      · rw [if_neg hb0]
        cases hd0 : git.default_branch a0.mirror_dir with
        | error e0 =>
          simp only []
          exact List.mem_cons_of_mem _ ih
        | ok d0 =>
          simp only []
          split
          · exact ih
          · exact ih


theorem foldl_item_init (l : List (String × Bool)) :
    ∀ acc : String,
      l.foldl (fun a q => a ++ unmergedItem q.1 q.2) acc = acc ++ unmergedListStr l := by
  induction l with
  | nil =>
    intro acc
    simp only [List.foldl_nil, unmergedListStr]
    rw [String.append_empty]
  | cons a t ih =>
    intro acc
    simp only [List.foldl_cons]
    rw [ih (acc ++ unmergedItem a.1 a.2)]
    have h2 : unmergedListStr (a :: t) = unmergedItem a.1 a.2 ++ unmergedListStr t := by
      show (a :: t).foldl (fun a q => a ++ unmergedItem q.1 q.2) "" = _
      simp only [List.foldl_cons]
      rw [ih ("" ++ unmergedItem a.1 a.2), String.empty_append]
    rw [h2, String.append_assoc]

/-- A member of the unmerged list contributes its report line to the list
part of the error message. -/
theorem unmerged_item_infix (l : List (String × Bool)) (p : String × Bool)
    (hp : p ∈ l) :
    ∃ x y, unmergedListStr l = x ++ (unmergedItem p.1 p.2 ++ y) := by
  induction l with
  | nil => cases hp
  | cons a t ih =>
    have hcons : unmergedListStr (a :: t) = unmergedItem a.1 a.2 ++ unmergedListStr t := by
      show (a :: t).foldl (fun a q => a ++ unmergedItem q.1 q.2) "" = _
      simp only [List.foldl_cons]
      rw [foldl_item_init t ("" ++ unmergedItem a.1 a.2), String.empty_append]
    rcases List.mem_cons.mp hp with h | h
    · subst h
      exact ⟨"", unmergedListStr t, by rw [hcons, String.empty_append]⟩
    · rcases ih h with ⟨x, y, hxy⟩
      exact ⟨unmergedItem a.1 a.2 ++ x, y,
        by rw [hcons, hxy, String.append_assoc]⟩

/-- A member of the unmerged list contributes its report line to the whole
unmerged-branches error message. -/
theorem unmerged_msg_infix (name branch : String) (l : List (String × Bool))
    (p : String × Bool) (hp : p ∈ l) :
    ∃ x y, unmergedMsg name branch l = x ++ (unmergedItem p.1 p.2 ++ y) := by
  rcases unmerged_item_infix l p hp with ⟨x, y, hxy⟩
  refine ⟨"workspace " ++ name ++ " has unmerged branches (" ++ branch ++ "):" ++ x,
    y ++ ("\n\nUse --force to remove anyway" ++
      (if l.any (fun p => p.2) then
        "\n\nNote: some fetches failed; the branch may already be merged remotely"
      else "")), ?_⟩
  rw [unmergedMsg, hxy]
  apply String.ext
  simp only [String.data_append, List.append_assoc]

/-- Every worktree of an Active repo is removed (the event is emitted). -/
theorem removeActive_mem (git : Git) (ws_dir : Path) :
    ∀ (actives : List ActiveRepo) (ar : ActiveRepo), ar ∈ actives →
      Event.worktreeRemove ar.mirror_dir (ws_dir ++ [ar.parsed.repo]) ∈
        removeActiveWorktrees git ws_dir actives
  | [], ar, hmem => by cases hmem
  | a0 :: rest, ar, hmem => by
    rw [removeActiveWorktrees]
    rcases List.mem_cons.mp hmem with h | h
    · subst h
      exact List.mem_cons_self _ _
    · exact List.mem_cons_of_mem _
        (List.mem_append_right _ (removeActive_mem git ws_dir rest ar h))

/-- Active worktree removal emits only worktree-remove events at the
workspace paths of Active repos, plus warnings. -/
theorem removeActive_origin (git : Git) (ws_dir : Path) :
    ∀ (actives : List ActiveRepo) (ev : Event),
      ev ∈ removeActiveWorktrees git ws_dir actives →
      (∃ ar ∈ actives, ev = Event.worktreeRemove ar.mirror_dir (ws_dir ++ [ar.parsed.repo])) ∨
        ∃ s, ev = Event.warn s
  | [], ev, hev => by cases hev
  | a0 :: rest, ev, hev => by
    rw [removeActiveWorktrees] at hev
    rcases List.mem_cons.mp hev with h | h
    · exact Or.inl ⟨a0, List.mem_cons_self _ _, h⟩
    · rcases List.mem_append.mp h with h2 | h2
      · split at h2
        · cases h2
        · exact Or.inr ⟨_, List.mem_singleton.mp h2⟩
      · rcases removeActive_origin git ws_dir rest ev h2 with ⟨ar, h3, h4⟩ | h3
        · exact Or.inl ⟨ar, List.mem_cons_of_mem _ h3, h4⟩
        · exact Or.inr h3

/-- Every worktree of a Context repo is removed (the event is emitted). -/
theorem removeContext_mem (git : Git) (ws_dir : Path) :
    ∀ (ctxs : List (Parsed × Path)) (pc : Parsed × Path), pc ∈ ctxs →
      Event.worktreeRemove pc.2 (ws_dir ++ [pc.1.repo]) ∈
        removeContextWorktrees git ws_dir ctxs
  | [], pc, hmem => by cases hmem
  | c0 :: rest, pc, hmem => by
    obtain ⟨p0, m0⟩ := c0
    rw [removeContextWorktrees]
    rcases List.mem_cons.mp hmem with h | h
    · subst h
      exact List.mem_cons_self _ _
    · exact List.mem_cons_of_mem _
        (List.mem_append_right _ (removeContext_mem git ws_dir rest pc h))

/-- Context worktree removal emits only worktree-remove events at the
workspace paths of Context repos, plus warnings. -/
theorem removeContext_origin (git : Git) (ws_dir : Path) :
    ∀ (ctxs : List (Parsed × Path)) (ev : Event),
      ev ∈ removeContextWorktrees git ws_dir ctxs →
      (∃ pc ∈ ctxs, ev = Event.worktreeRemove pc.2 (ws_dir ++ [pc.1.repo])) ∨
        ∃ s, ev = Event.warn s
  | [], ev, hev => by cases hev
  | c0 :: rest, ev, hev => by
    obtain ⟨p0, m0⟩ := c0
    rw [removeContextWorktrees] at hev
    rcases List.mem_cons.mp hev with h | h
    · exact Or.inl ⟨(p0, m0), List.mem_cons_self _ _, h⟩
    · rcases List.mem_append.mp h with h2 | h2
      · split at h2
        · cases h2
        · exact Or.inr ⟨_, List.mem_singleton.mp h2⟩
      · rcases removeContext_origin git ws_dir rest ev h2 with ⟨pc, h3, h4⟩ | h3
        · exact Or.inl ⟨pc, List.mem_cons_of_mem _ h3, h4⟩
        · exact Or.inr h3

/-- The shared branch is deleted from each Active mirror where it still
exists (the event is emitted). -/
theorem deleteBranches_mem (git : Git) (branch : String) :
    ∀ (actives : List ActiveRepo) (ar : ActiveRepo), ar ∈ actives →
      git.branch_exists ar.mirror_dir branch = true →
      Event.branchDelete ar.mirror_dir branch ∈ deleteBranches git branch actives
  | [], ar, hmem, _ => by cases hmem
  | a0 :: rest, ar, hmem, hbe => by
    rw [deleteBranches]
    rcases List.mem_cons.mp hmem with h | h
    · subst h
      rw [if_pos hbe]
      exact List.mem_cons_self _ _
    · by_cases hb0 : git.branch_exists a0.mirror_dir branch = true
      · rw [if_pos hb0]
        exact List.mem_cons_of_mem _
          (List.mem_append_right _ (deleteBranches_mem git branch rest ar h hbe))
      · rw [if_neg hb0]
        exact deleteBranches_mem git branch rest ar h hbe

/-- Branch deletion emits only branch-delete events for the shared branch
at Active mirrors where it still exists, plus warnings. -/
theorem deleteBranches_origin (git : Git) (branch : String) :
    ∀ (actives : List ActiveRepo) (ev : Event),
      ev ∈ deleteBranches git branch actives →
      (∃ ar ∈ actives, ev = Event.branchDelete ar.mirror_dir branch ∧
        git.branch_exists ar.mirror_dir branch = true) ∨ ∃ s, ev = Event.warn s
  | [], ev, hev => by cases hev
  | a0 :: rest, ev, hev => by
    rw [deleteBranches] at hev
    by_cases hb0 : git.branch_exists a0.mirror_dir branch = true
    · rw [if_pos hb0] at hev
      rcases List.mem_cons.mp hev with h | h
      · exact Or.inl ⟨a0, List.mem_cons_self _ _, h, hb0⟩
      · rcases List.mem_append.mp h with h2 | h2
        · split at h2
          · cases h2
          · exact Or.inr ⟨_, List.mem_singleton.mp h2⟩
        · rcases deleteBranches_origin git branch rest ev h2 with ⟨ar, h3, h4⟩ | h3
          · exact Or.inl ⟨ar, List.mem_cons_of_mem _ h3, h4⟩
          · exact Or.inr h3
    · rw [if_neg hb0] at hev
      rcases deleteBranches_origin git branch rest ev hev with ⟨ar, h3, h4⟩ | h3
      · exact Or.inl ⟨ar, List.mem_cons_of_mem _ h3, h4⟩
      · exact Or.inr h3

/-- A successful parse determines the identity string. -/
theorem from_identity_data (s : String) (p : Parsed)
    (h : Parsed.from_identity s = .ok p) :
    s.toList = List.intercalate ['/'] [p.host.toList, p.owner.toList, p.repo.toList] := by
  unfold Parsed.from_identity at h
  split at h
  · split at h
    · cases h
    · injection h with h
      subst h
      rename_i h1 o r heq _
      have h5 := @List.intercalate_splitOn _ s.toList '/' _
      rw [heq] at h5
      exact h5.symm
  · cases h

/-- Parsing is injective: two identity strings with the same successful
parse are equal. -/
theorem from_identity_inj (s t : String) (p : Parsed)
    (hs : Parsed.from_identity s = .ok p) (ht : Parsed.from_identity t = .ok p) :
    s = t := by
  apply String.ext
  have h1 := from_identity_data s p hs
  have h2 := from_identity_data t p ht
  exact h1.trans h2.symm

/-- Mirror paths are injective in the parse result. -/
theorem mirror_path_inj (p q : Parsed) (h : p.mirror_path = q.mirror_path) :
    p = q := by
  obtain ⟨ph, po, pr⟩ := p
  obtain ⟨qh, qo, qr⟩ := q
  simp only [Parsed.mirror_path] at h
  injection h with h1 h2
  injection h2 with h2 h3
  injection h3 with h3 _
  subst h1
  subst h2
  have h4 : pr = qr := by
    apply String.ext
    have h5 := congrArg String.data h3
    rw [String.data_append, String.data_append] at h5
    exact List.append_cancel_right h5
  rw [h4]

/-- Mirror directories (same environment) are injective in the parse. -/
theorem mirrorDir_inj (env : Env) (p q : Parsed) (m : Path)
    (hp : mirrorDir env p = .ok m) (hq : mirrorDir env q = .ok m) : p = q := by
  unfold mirrorDir at hp hq
  cases hr : env.mirrors_root with
  | error e =>
    rw [hr] at hp
    cases hp
  | ok root =>
    rw [hr] at hp hq
    injection hp with hp
    injection hq with hq
    exact mirror_path_inj p q (List.append_cancel_left (hp.trans hq.symm))

/-- With duplicate-free keys, a key determines its entry. -/
theorem entry_unique (l : List (String × Option WorkspaceRepoRef))
    (hnd : (l.map Prod.fst).Nodup) (k : String) (v1 v2 : Option WorkspaceRepoRef)
    (h1 : (k, v1) ∈ l) (h2 : (k, v2) ∈ l) : v1 = v2 := by
  induction l with
  | nil => cases h1
  | cons a t ih =>
    rw [List.map_cons] at hnd
    have hnd1 := List.nodup_cons.mp hnd
    rcases List.mem_cons.mp h1 with e1 | e1 <;> rcases List.mem_cons.mp h2 with e2 | e2
    · have h3 := e1.trans e2.symm
      exact (Prod.ext_iff.mp h3).2
    · exfalso
      apply hnd1.1
      have h4 : a.1 = k := by rw [← e1]
      rw [h4]
      exact List.mem_map_of_mem Prod.fst e2
    · exfalso
      apply hnd1.1
      have h4 : a.1 = k := by rw [← e2]
      rw [h4]
      exact List.mem_map_of_mem Prod.fst e1
    · exact ih hnd1.2 e1 e2

/-- `remove` with `force` runs the partition and then the removal pass. -/
theorem remove_force_eq (env : Env) (git : Git) (fsys : Fs) (name : String)
    (ws_dir : Path) (meta : Metadata)
    (hws : wsDir env name = .ok ws_dir) (hload : fsys.load ws_dir = .ok meta) :
    remove env git fsys name true =
      (fsys.remove_dir_ok ws_dir,
       (partitionRepos env git meta.repos).2.2 ++
         (removalPass git fsys ws_dir meta.branch
           (partitionRepos env git meta.repos).1
           (partitionRepos env git meta.repos).2.1).2) := by
  simp only [remove, hws, hload]
  rfl

/-- `remove` without `force` but with an empty unmerged list runs the
partition, the pre-flight check, and then the removal pass. -/
theorem remove_gate_pass_eq (env : Env) (git : Git) (fsys : Fs) (name : String)
    (ws_dir : Path) (meta : Metadata)
    (hws : wsDir env name = .ok ws_dir) (hload : fsys.load ws_dir = .ok meta)
    (hemp : (computeUnmerged git meta.branch (partitionRepos env git meta.repos).1).1 = []) :
    remove env git fsys name false =
      (fsys.remove_dir_ok ws_dir,
       (partitionRepos env git meta.repos).2.2 ++
         (computeUnmerged git meta.branch (partitionRepos env git meta.repos).1).2 ++
         (removalPass git fsys ws_dir meta.branch
           (partitionRepos env git meta.repos).1
           (partitionRepos env git meta.repos).2.1).2) := by
  simp only [remove, hws, hload, hemp]
  rfl

/-- `remove` without `force` and with a non-empty unmerged list fails with
the unmerged-branches message, having run only partition and pre-flight. -/
theorem remove_gate_deny_eq (env : Env) (git : Git) (fsys : Fs) (name : String)
    (ws_dir : Path) (meta : Metadata)
    (hws : wsDir env name = .ok ws_dir) (hload : fsys.load ws_dir = .ok meta)
    (hne : (computeUnmerged git meta.branch (partitionRepos env git meta.repos).1).1 ≠ []) :
    remove env git fsys name false =
      (.error (unmergedMsg name meta.branch
        (computeUnmerged git meta.branch (partitionRepos env git meta.repos).1).1),
       (partitionRepos env git meta.repos).2.2 ++
         (computeUnmerged git meta.branch (partitionRepos env git meta.repos).1).2) := by
  have hie : (computeUnmerged git meta.branch (partitionRepos env git meta.repos).1).1.isEmpty
      = false := by
    cases hl : (computeUnmerged git meta.branch (partitionRepos env git meta.repos).1).1 with
    | nil => exact absurd hl hne
    | cons a t => rfl
  simp only [remove, hws, hload, hie]
  rfl


/-- Everything the removal pass attempts is in its trace, and the workspace
directory removal is the final event. -/
theorem pass_trace_mem (git : Git) (fsys : Fs) (ws_dir : Path) (branch : String)
    (actives : List ActiveRepo) (ctxs : List (Parsed × Path)) :
    Event.removeDirAll ws_dir ∈ (removalPass git fsys ws_dir branch actives ctxs).2 ∧
    (∀ ar ∈ actives, Event.worktreeRemove ar.mirror_dir (ws_dir ++ [ar.parsed.repo]) ∈
      (removalPass git fsys ws_dir branch actives ctxs).2) ∧
    (∀ pc ∈ ctxs, Event.worktreeRemove pc.2 (ws_dir ++ [pc.1.repo]) ∈
      (removalPass git fsys ws_dir branch actives ctxs).2) ∧
    (∀ ar ∈ actives, git.branch_exists ar.mirror_dir branch = true →
      Event.branchDelete ar.mirror_dir branch ∈
        (removalPass git fsys ws_dir branch actives ctxs).2) ∧
    (removalPass git fsys ws_dir branch actives ctxs).2.getLast? =
      some (Event.removeDirAll ws_dir) := by
  have hshape : (removalPass git fsys ws_dir branch actives ctxs).2 =
      removeActiveWorktrees git ws_dir actives ++
        removeContextWorktrees git ws_dir ctxs ++
        deleteBranches git branch actives ++ [Event.removeDirAll ws_dir] := rfl
  refine ⟨?_, ?_, ?_, ?_, ?_⟩
  · rw [hshape]
    exact List.mem_append_right _ (List.mem_singleton.mpr rfl)
  · intro ar har
    rw [hshape]
    exact List.mem_append_left _ (List.mem_append_left _
      (List.mem_append_left _ (removeActive_mem git ws_dir actives ar har)))
  · intro pc hpc
    rw [hshape]
    exact List.mem_append_left _ (List.mem_append_left _
      (List.mem_append_right _ (removeContext_mem git ws_dir ctxs pc hpc)))
  · intro ar har hbe
    rw [hshape]
    exact List.mem_append_left _
      (List.mem_append_right _ (deleteBranches_mem git branch actives ar har hbe))
  · rw [hshape, List.getLast?_append]
    rfl

/-- Every event of the removal pass is a warning, a worktree removal at a
repo's workspace path, a due branch deletion, or the directory removal. -/
theorem pass_trace_origin (git : Git) (fsys : Fs) (ws_dir : Path) (branch : String)
    (actives : List ActiveRepo) (ctxs : List (Parsed × Path)) (ev : Event)
    (hev : ev ∈ (removalPass git fsys ws_dir branch actives ctxs).2) :
    (∃ s, ev = Event.warn s) ∨
    (∃ ar ∈ actives, ev = Event.worktreeRemove ar.mirror_dir (ws_dir ++ [ar.parsed.repo])) ∨
    (∃ pc ∈ ctxs, ev = Event.worktreeRemove pc.2 (ws_dir ++ [pc.1.repo])) ∨
    (∃ ar ∈ actives, ev = Event.branchDelete ar.mirror_dir branch ∧
      git.branch_exists ar.mirror_dir branch = true) ∨
    ev = Event.removeDirAll ws_dir := by
  have hshape : (removalPass git fsys ws_dir branch actives ctxs).2 =
      removeActiveWorktrees git ws_dir actives ++
        removeContextWorktrees git ws_dir ctxs ++
        deleteBranches git branch actives ++ [Event.removeDirAll ws_dir] := rfl
  rw [hshape] at hev
  rcases List.mem_append.mp hev with h | h
  · rcases List.mem_append.mp h with h2 | h2
    · rcases List.mem_append.mp h2 with h3 | h3
      · rcases removeActive_origin git ws_dir actives ev h3 with ⟨ar, h4, h5⟩ | h4
        · exact Or.inr (Or.inl ⟨ar, h4, h5⟩)
        · exact Or.inl h4
      · rcases removeContext_origin git ws_dir ctxs ev h3 with ⟨pc, h4, h5⟩ | h4
        · exact Or.inr (Or.inr (Or.inl ⟨pc, h4, h5⟩))
        · exact Or.inl h4
    · rcases deleteBranches_origin git branch actives ev h2 with ⟨ar, h4, h5⟩ | h4
      · exact Or.inr (Or.inr (Or.inr (Or.inl ⟨ar, h4, h5⟩)))
      · exact Or.inl h4
  · exact Or.inr (Or.inr (Or.inr (Or.inr (List.mem_singleton.mp h))))

/-- Whatever `remove` did, every event of its trace is a fetch, a warning,
a worktree removal at a repo's workspace path, a branch deletion of the
shared branch at an Active repo's mirror where it still exists, or the
removal of the workspace directory itself. -/
theorem remove_trace_cases (env : Env) (git : Git) (fsys : Fs) (name : String)
    (force : Bool) (ws_dir : Path) (meta : Metadata) (res : Except String Unit)
    (tr : List Event)
    (hws : wsDir env name = .ok ws_dir) (hload : fsys.load ws_dir = .ok meta)
    (hrm : remove env git fsys name force = (res, tr)) :
    ∀ ev ∈ tr,
      (∃ m, ev = Event.fetch m) ∨ (∃ s, ev = Event.warn s) ∨
      (∃ ar ∈ (partitionRepos env git meta.repos).1,
        ev = Event.worktreeRemove ar.mirror_dir (ws_dir ++ [ar.parsed.repo])) ∨
      (∃ pc ∈ (partitionRepos env git meta.repos).2.1,
        ev = Event.worktreeRemove pc.2 (ws_dir ++ [pc.1.repo])) ∨
      (∃ ar ∈ (partitionRepos env git meta.repos).1,
        ev = Event.branchDelete ar.mirror_dir meta.branch ∧
        git.branch_exists ar.mirror_dir meta.branch = true) ∨
      ev = Event.removeDirAll ws_dir := by
  intro ev hev
  have hpass : ∀ hev2 : ev ∈ (removalPass git fsys ws_dir meta.branch
      (partitionRepos env git meta.repos).1 (partitionRepos env git meta.repos).2.1).2,
      _ := fun hev2 => pass_trace_origin git fsys ws_dir meta.branch
        (partitionRepos env git meta.repos).1 (partitionRepos env git meta.repos).2.1 ev hev2
  cases force with
  | true =>
    rw [remove_force_eq env git fsys name ws_dir meta hws hload] at hrm
    injection hrm with h1 h2
    rw [← h2] at hev
    rcases List.mem_append.mp hev with h | h
    · rcases partition_events env git meta.repos ev h with h3 | h3
      · exact Or.inl h3
      · exact Or.inr (Or.inl h3)
    · rcases hpass h with h3 | h3 | h3 | h3 | h3
      · exact Or.inr (Or.inl h3)
      · exact Or.inr (Or.inr (Or.inl h3))
      · exact Or.inr (Or.inr (Or.inr (Or.inl h3)))
      · exact Or.inr (Or.inr (Or.inr (Or.inr (Or.inl h3))))
      · exact Or.inr (Or.inr (Or.inr (Or.inr (Or.inr h3))))
  | false =>
    by_cases hemp : (computeUnmerged git meta.branch
        (partitionRepos env git meta.repos).1).1 = []
    · rw [remove_gate_pass_eq env git fsys name ws_dir meta hws hload hemp] at hrm
      injection hrm with h1 h2
      rw [← h2] at hev
      rcases List.mem_append.mp hev with h | h
      · rcases List.mem_append.mp h with h4 | h4
        · rcases partition_events env git meta.repos ev h4 with h3 | h3
          · exact Or.inl h3
          · exact Or.inr (Or.inl h3)
        · rcases unmerged_events git meta.branch _ ev h4 with ⟨s, h3⟩
          exact Or.inr (Or.inl ⟨s, h3⟩)
      · rcases hpass h with h3 | h3 | h3 | h3 | h3
        · exact Or.inr (Or.inl h3)
        · exact Or.inr (Or.inr (Or.inl h3))
        · exact Or.inr (Or.inr (Or.inr (Or.inl h3)))
        · exact Or.inr (Or.inr (Or.inr (Or.inr (Or.inl h3))))
        · exact Or.inr (Or.inr (Or.inr (Or.inr (Or.inr h3))))
    · rw [remove_gate_deny_eq env git fsys name ws_dir meta hws hload hemp] at hrm
      injection hrm with h1 h2
      rw [← h2] at hev
      rcases List.mem_append.mp hev with h | h
      · rcases partition_events env git meta.repos ev h with h3 | h3
        · exact Or.inl h3
        · exact Or.inr (Or.inl h3)
      · rcases unmerged_events git meta.branch _ ev h with ⟨s, h3⟩
        exact Or.inr (Or.inl ⟨s, h3⟩)

/-! ### Claim theorems -/

/-- C7: for every `Metadata` whose repo entries are each either `None`
(Active) or a non-empty ref string (Context), serializing and then
deserializing restores the name, the branch and every entry's
presence/absence discriminator and ref string exactly, and an Active entry
is never represented by an empty-string ref in the serialized form. -/
theorem metadata_roundtrip (m : Metadata)
    (h : ∀ p ∈ m.repos, p.2 = none ∨ ∃ r, p.2 = some r ∧ r.ref ≠ "") :
    deserializeMetadata (serializeMetadata m) = m ∧
    ∀ p ∈ (serializeMetadata m).repos, p.2 ≠ SerEntry.map (some "") := by
  constructor
  · cases m with
    | mk n b repos c =>
      simp only [serializeMetadata, deserializeMetadata, List.map_map]
      exact congrArg (fun l => Metadata.mk n b l c) (serialize_roundtrip_repos repos h)
  · intro p hp
    simp only [serializeMetadata, List.mem_map] at hp
    obtain ⟨q, _, rfl⟩ := hp
    exact serializeEntry_ne_empty_ref q.2

/-- Witness for C7 at a concrete metadata value with one Active and two
Context entries. -/
theorem metadata_roundtrip_witness :
    deserializeMetadata (serializeMetadata exMeta) = exMeta ∧
    ∀ p ∈ (serializeMetadata exMeta).repos, p.2 ≠ SerEntry.map (some "") :=
  metadata_roundtrip exMeta (by decide)

/-- C3: with a non-empty pinned ref, `add_worktree` attaches the existing
local branch when one of that name exists in the mirror; otherwise the
remote-tracking ref `origin/<ref>` when `refs/remotes/origin/<ref>` exists;
otherwise a detached head at the ref. In each case the result is exactly
the backend call's result, so backend failure propagates and there is no
further fallback. -/
theorem context_attach_chain (env : Env) (git : Git) (ws_dir : Path)
    (identity branch git_ref : String) (parsed : Parsed) (mirror_dir : Path)
    (hp : Parsed.from_identity identity = .ok parsed)
    (hm : mirrorDir env parsed = .ok mirror_dir)
    (hr : git_ref ≠ "") :
    (git.branch_exists mirror_dir git_ref = true →
      add_worktree env git ws_dir identity branch git_ref =
        (git.worktree_add_existing mirror_dir (ws_dir ++ [parsed.repo]) git_ref,
         [Event.worktreeAddExisting mirror_dir (ws_dir ++ [parsed.repo]) git_ref])) ∧
    (git.branch_exists mirror_dir git_ref = false →
      git.ref_exists mirror_dir ("refs/remotes/origin/" ++ git_ref) = true →
      add_worktree env git ws_dir identity branch git_ref =
        (git.worktree_add_existing mirror_dir (ws_dir ++ [parsed.repo])
           ("origin/" ++ git_ref),
         [Event.worktreeAddExisting mirror_dir (ws_dir ++ [parsed.repo])
           ("origin/" ++ git_ref)])) ∧
    (git.branch_exists mirror_dir git_ref = false →
      git.ref_exists mirror_dir ("refs/remotes/origin/" ++ git_ref) = false →
      add_worktree env git ws_dir identity branch git_ref =
        (git.worktree_add_detached mirror_dir (ws_dir ++ [parsed.repo]) git_ref,
         [Event.worktreeAddDetached mirror_dir (ws_dir ++ [parsed.repo]) git_ref])) := by
  have hre := isEmpty_false_of_ne git_ref hr
  refine ⟨fun h1 => ?_, fun h1 h2 => ?_, fun h1 h2 => ?_⟩
  · simp [add_worktree, hp, hm, hre, h1]
  · simp [add_worktree, hp, hm, hre, h1, h2]
  · simp [add_worktree, hp, hm, hre, h1, h2]

/-- Witness for C3 at a concrete request (ref `v1.0`, all refs existing). -/
theorem context_attach_chain_witness :
    (exGit.branch_exists ["data", "ws", "mirrors", "github.com", "acme", "proto.git"]
        "v1.0" = true →
      add_worktree exEnv exGit ["home", "dev", "workspaces", "my-ws"]
          "github.com/acme/proto" "my-ws" "v1.0" =
        (exGit.worktree_add_existing
           ["data", "ws", "mirrors", "github.com", "acme", "proto.git"]
           (["home", "dev", "workspaces", "my-ws"] ++ ["proto"]) "v1.0",
         [Event.worktreeAddExisting
            ["data", "ws", "mirrors", "github.com", "acme", "proto.git"]
            (["home", "dev", "workspaces", "my-ws"] ++ ["proto"]) "v1.0"])) ∧
    (exGit.branch_exists ["data", "ws", "mirrors", "github.com", "acme", "proto.git"]
        "v1.0" = false →
      exGit.ref_exists ["data", "ws", "mirrors", "github.com", "acme", "proto.git"]
        ("refs/remotes/origin/" ++ "v1.0") = true →
      add_worktree exEnv exGit ["home", "dev", "workspaces", "my-ws"]
          "github.com/acme/proto" "my-ws" "v1.0" =
        (exGit.worktree_add_existing
           ["data", "ws", "mirrors", "github.com", "acme", "proto.git"]
           (["home", "dev", "workspaces", "my-ws"] ++ ["proto"]) ("origin/" ++ "v1.0"),
         [Event.worktreeAddExisting
            ["data", "ws", "mirrors", "github.com", "acme", "proto.git"]
            (["home", "dev", "workspaces", "my-ws"] ++ ["proto"]) ("origin/" ++ "v1.0")])) ∧
    (exGit.branch_exists ["data", "ws", "mirrors", "github.com", "acme", "proto.git"]
        "v1.0" = false →
      exGit.ref_exists ["data", "ws", "mirrors", "github.com", "acme", "proto.git"]
        ("refs/remotes/origin/" ++ "v1.0") = false →
      add_worktree exEnv exGit ["home", "dev", "workspaces", "my-ws"]
          "github.com/acme/proto" "my-ws" "v1.0" =
        (exGit.worktree_add_detached
           ["data", "ws", "mirrors", "github.com", "acme", "proto.git"]
           (["home", "dev", "workspaces", "my-ws"] ++ ["proto"]) "v1.0",
         [Event.worktreeAddDetached
            ["data", "ws", "mirrors", "github.com", "acme", "proto.git"]
            (["home", "dev", "workspaces", "my-ws"] ++ ["proto"]) "v1.0"])) :=
  context_attach_chain exEnv exGit ["home", "dev", "workspaces", "my-ws"]
    "github.com/acme/proto" "my-ws" "v1.0" ⟨"github.com", "acme", "proto"⟩
    ["data", "ws", "mirrors", "github.com", "acme", "proto.git"]
    rfl rfl (by decide)

/-- C4: with no pinned ref, `add_worktree` attaches the existing shared
workspace branch when it already exists locally in the mirror; otherwise it
resolves the mirror's default branch via the backend and creates a new
local branch for the workspace, starting from `origin/<default>` when that
remote-tracking ref exists in the mirror and from the local `<default>`
branch otherwise. -/
theorem active_attach_chain (env : Env) (git : Git) (ws_dir : Path)
    (identity branch : String) (parsed : Parsed) (mirror_dir : Path)
    (hp : Parsed.from_identity identity = .ok parsed)
    (hm : mirrorDir env parsed = .ok mirror_dir) :
    (git.branch_exists mirror_dir branch = true →
      add_worktree env git ws_dir identity branch "" =
        (git.worktree_add_existing mirror_dir (ws_dir ++ [parsed.repo]) branch,
         [Event.worktreeAddExisting mirror_dir (ws_dir ++ [parsed.repo]) branch])) ∧
    (git.branch_exists mirror_dir branch = false →
      (∀ e, git.default_branch mirror_dir = .error e →
        add_worktree env git ws_dir identity branch "" = (.error e, [])) ∧
      (∀ d, git.default_branch mirror_dir = .ok d →
        git.ref_exists mirror_dir ("origin/" ++ d) = true →
        add_worktree env git ws_dir identity branch "" =
          (git.worktree_add mirror_dir (ws_dir ++ [parsed.repo]) branch ("origin/" ++ d),
           [Event.worktreeAdd mirror_dir (ws_dir ++ [parsed.repo]) branch
             ("origin/" ++ d)])) ∧
      (∀ d, git.default_branch mirror_dir = .ok d →
        git.ref_exists mirror_dir ("origin/" ++ d) = false →
        add_worktree env git ws_dir identity branch "" =
          (git.worktree_add mirror_dir (ws_dir ++ [parsed.repo]) branch d,
           [Event.worktreeAdd mirror_dir (ws_dir ++ [parsed.repo]) branch d]))) := by
  have h0 : ("" : String).isEmpty = true := rfl
  refine ⟨fun h1 => ?_, fun h1 => ⟨fun e he => ?_, fun d hd h2 => ?_, fun d hd h2 => ?_⟩⟩
  · simp [add_worktree, hp, hm, h0, h1]
  · simp [add_worktree, hp, hm, h0, h1, he]
  · simp [add_worktree, hp, hm, h0, h1, hd, h2]
  · simp [add_worktree, hp, hm, h0, h1, hd, h2]

/-- Witness for C4 at a concrete Active attach (branch absent, default
branch `main`, `origin/main` present). -/
theorem active_attach_chain_witness :
    (exGit.branch_exists ["data", "ws", "mirrors", "github.com", "acme", "api-gateway.git"]
        "my-ws" = true →
      add_worktree exEnv exGit ["home", "dev", "workspaces", "my-ws"]
          "github.com/acme/api-gateway" "my-ws" "" =
        (exGit.worktree_add_existing
           ["data", "ws", "mirrors", "github.com", "acme", "api-gateway.git"]
           (["home", "dev", "workspaces", "my-ws"] ++ ["api-gateway"]) "my-ws",
         [Event.worktreeAddExisting
            ["data", "ws", "mirrors", "github.com", "acme", "api-gateway.git"]
            (["home", "dev", "workspaces", "my-ws"] ++ ["api-gateway"]) "my-ws"])) ∧
    (exGit.branch_exists ["data", "ws", "mirrors", "github.com", "acme", "api-gateway.git"]
        "my-ws" = false →
      (∀ e, exGit.default_branch
          ["data", "ws", "mirrors", "github.com", "acme", "api-gateway.git"] = .error e →
        add_worktree exEnv exGit ["home", "dev", "workspaces", "my-ws"]
          "github.com/acme/api-gateway" "my-ws" "" = (.error e, [])) ∧
      (∀ d, exGit.default_branch
          ["data", "ws", "mirrors", "github.com", "acme", "api-gateway.git"] = .ok d →
        exGit.ref_exists ["data", "ws", "mirrors", "github.com", "acme", "api-gateway.git"]
          ("origin/" ++ d) = true →
        add_worktree exEnv exGit ["home", "dev", "workspaces", "my-ws"]
            "github.com/acme/api-gateway" "my-ws" "" =
          (exGit.worktree_add
             ["data", "ws", "mirrors", "github.com", "acme", "api-gateway.git"]
             (["home", "dev", "workspaces", "my-ws"] ++ ["api-gateway"]) "my-ws"
             ("origin/" ++ d),
           [Event.worktreeAdd
              ["data", "ws", "mirrors", "github.com", "acme", "api-gateway.git"]
              (["home", "dev", "workspaces", "my-ws"] ++ ["api-gateway"]) "my-ws"
              ("origin/" ++ d)])) ∧
      (∀ d, exGit.default_branch
          ["data", "ws", "mirrors", "github.com", "acme", "api-gateway.git"] = .ok d →
        exGit.ref_exists ["data", "ws", "mirrors", "github.com", "acme", "api-gateway.git"]
          ("origin/" ++ d) = false →
        add_worktree exEnv exGit ["home", "dev", "workspaces", "my-ws"]
            "github.com/acme/api-gateway" "my-ws" "" =
          (exGit.worktree_add
             ["data", "ws", "mirrors", "github.com", "acme", "api-gateway.git"]
             (["home", "dev", "workspaces", "my-ws"] ++ ["api-gateway"]) "my-ws" d,
           [Event.worktreeAdd
              ["data", "ws", "mirrors", "github.com", "acme", "api-gateway.git"]
              (["home", "dev", "workspaces", "my-ws"] ++ ["api-gateway"]) "my-ws" d]))) :=
  active_attach_chain exEnv exGit ["home", "dev", "workspaces", "my-ws"]
    "github.com/acme/api-gateway" "my-ws" ⟨"github.com", "acme", "api-gateway"⟩
    ["data", "ws", "mirrors", "github.com", "acme", "api-gateway.git"]
    rfl rfl

/-- Every event `attachAll` emits is a worktree attach. -/
theorem attachAll_events (env : Env) (git : Git) (ws_dir : Path) (branch : String) :
    ∀ (l : List (String × String)),
      ∀ ev ∈ (attachAll env git ws_dir branch l).2, ev.isAttach = true
  | [], ev, hev => by rw [attachAll] at hev; cases hev
  | (identity, r) :: rest, ev, hev => by
    rw [attachAll] at hev
    cases haw : add_worktree env git ws_dir identity branch r with
    | mk res evs =>
      rw [haw] at hev
      cases res with
      | error e =>
        exact add_worktree_events env git ws_dir identity branch r ev
          (by rw [haw]; exact hev)
      | ok u =>
        simp only [] at hev
        rcases List.mem_append.mp hev with h | h
        · exact add_worktree_events env git ws_dir identity branch r ev
            (by rw [haw]; exact h)
        · exact attachAll_events env git ws_dir branch rest ev h

/-- C8: each Identity already present in the loaded metadata is skipped by
`add_repos` without error: every attach event comes from a requested
identity that was not yet present, a present identity keeps exactly its
existing `RepoRef`, and a request of only already-present identities
rewrites the metadata file with the repo map unchanged. -/
theorem add_repos_idempotent (env : Env) (git : Git) (fsys : Fs) (ws_dir : Path)
    (meta : Metadata) (repo_refs : List (String × String))
    (hload : fsys.load ws_dir = .ok meta) :
    ((∀ p ∈ repo_refs, containsKey meta.repos p.1 = true) →
      add_repos env git fsys ws_dir repo_refs =
        (fsys.save ws_dir meta,
         repo_refs.map (fun p => Event.info (p.1 ++ " already in workspace, skipping")) ++
           [Event.saveMetadata ws_dir meta])) ∧
    (∀ id, containsKey meta.repos id = true →
      ∀ meta2 evs, addLoop env git ws_dir meta repo_refs = (.ok meta2, evs) →
        lookupKey meta2.repos id = lookupKey meta.repos id) ∧
    (∀ ev ∈ (add_repos env git fsys ws_dir repo_refs).2, ev.isAttach = true →
      ∃ p ∈ repo_refs, containsKey meta.repos p.1 = false ∧
        ev ∈ (add_worktree env git ws_dir p.1 meta.branch p.2).2) := by
  refine ⟨fun hall => ?_, fun id hid meta2 evs hl => ?_, fun ev hev hatt => ?_⟩
  · simp only [add_repos, hload, addLoop_skip_all env git ws_dir repo_refs meta hall]
  · exact (addLoop_ok_shape env git ws_dir repo_refs meta meta2 evs hl).2.2.2.2 id hid
  · simp only [add_repos, hload] at hev
    cases hl : addLoop env git ws_dir meta repo_refs with
    | mk res evs0 =>
      rw [hl] at hev
      cases res with
      | error e =>
        exact addLoop_attach_origin env git ws_dir repo_refs meta ev
          (by rw [hl]; exact hev) hatt
      | ok meta2 =>
        simp only [] at hev
        rcases List.mem_append.mp hev with h | h
        · exact addLoop_attach_origin env git ws_dir repo_refs meta ev
            (by rw [hl]; exact h) hatt
        · obtain rfl := List.mem_singleton.mp h
          simp [Event.isAttach] at hatt

/-- Witness for C8: re-adding the one Active and one Context identity that
`exMeta` already holds leaves the saved repo map unchanged. -/
theorem add_repos_idempotent_witness :
    ((∀ p ∈ [(("github.com/acme/api-gateway" : String), ("" : String))],
        containsKey exMeta.repos p.1 = true) →
      add_repos exEnv exGit exFs ["home", "dev", "workspaces", "my-ws"]
          [("github.com/acme/api-gateway", "")] =
        (exFs.save ["home", "dev", "workspaces", "my-ws"] exMeta,
         [(("github.com/acme/api-gateway" : String), ("" : String))].map
           (fun p => Event.info (p.1 ++ " already in workspace, skipping")) ++
           [Event.saveMetadata ["home", "dev", "workspaces", "my-ws"] exMeta])) ∧
    (∀ id, containsKey exMeta.repos id = true →
      ∀ meta2 evs, addLoop exEnv exGit ["home", "dev", "workspaces", "my-ws"] exMeta
          [("github.com/acme/api-gateway", "")] = (.ok meta2, evs) →
        lookupKey meta2.repos id = lookupKey exMeta.repos id) ∧
    (∀ ev ∈ (add_repos exEnv exGit exFs ["home", "dev", "workspaces", "my-ws"]
        [("github.com/acme/api-gateway", "")]).2, ev.isAttach = true →
      ∃ p ∈ [(("github.com/acme/api-gateway" : String), ("" : String))],
        containsKey exMeta.repos p.1 = false ∧
        ev ∈ (add_worktree exEnv exGit ["home", "dev", "workspaces", "my-ws"]
          p.1 exMeta.branch p.2).2) :=
  add_repos_idempotent exEnv exGit exFs ["home", "dev", "workspaces", "my-ws"]
    exMeta [("github.com/acme/api-gateway", "")] rfl

/-- C9: a failing attach partway through `add_repos` returns the error and
abandons the remaining additions, but the worktrees attached earlier in the
same call are not rolled back (the trace holds no destructive event and no
metadata write); on success the metadata file is written exactly once, as
the final event, after all requested additions have been processed. -/
theorem add_repos_lenient (env : Env) (git : Git) (fsys : Fs) (ws_dir : Path)
    (meta : Metadata) (l1 l2 : List (String × String)) (id r e : String)
    (aevs : List Event)
    (hload : fsys.load ws_dir = .ok meta)
    (h1 : ∀ p ∈ l1, (add_worktree env git ws_dir p.1 meta.branch p.2).1 = .ok () ∨
      containsKey meta.repos p.1 = true)
    (hnew : containsKey meta.repos id = false)
    (hni : ∀ p ∈ l1, p.1 ≠ id)
    (hfail : add_worktree env git ws_dir id meta.branch r = (.error e, aevs)) :
    (∃ meta1 tr1, addLoop env git ws_dir meta l1 = (.ok meta1, tr1) ∧
      add_repos env git fsys ws_dir (l1 ++ (id, r) :: l2) =
        (.error ("adding worktree for " ++ id ++ ": " ++ e), tr1 ++ aevs)) ∧
    (∀ ev ∈ (add_repos env git fsys ws_dir (l1 ++ (id, r) :: l2)).2,
      (∀ d m2, ev ≠ Event.saveMetadata d m2) ∧ ev.destructive = false) ∧
    (∀ rr meta2 evs, addLoop env git ws_dir meta rr = (.ok meta2, evs) →
      add_repos env git fsys ws_dir rr =
        (fsys.save ws_dir meta2, evs ++ [Event.saveMetadata ws_dir meta2]) ∧
      ∀ d m2, Event.saveMetadata d m2 ∉ evs) := by
  obtain ⟨meta1, tr1, hl1⟩ := addLoop_ok_of env git ws_dir l1 meta h1
  obtain ⟨hb, _, _, hfrom, _⟩ := addLoop_ok_shape env git ws_dir l1 meta meta1 tr1 hl1
  have hnew1 : ¬ containsKey meta1.repos id = true := by
    intro hx
    rcases hfrom id hx with h | ⟨p, hp, hk⟩
    · rw [h] at hnew; cases hnew
    · exact hni p hp hk
  have hstep : addLoop env git ws_dir meta1 ((id, r) :: l2) =
      (.error ("adding worktree for " ++ id ++ ": " ++ e), aevs) := by
    rw [addLoop, if_neg hnew1, hb, hfail]
  have hbig : addLoop env git ws_dir meta (l1 ++ (id, r) :: l2) =
      (.error ("adding worktree for " ++ id ++ ": " ++ e), tr1 ++ aevs) := by
    rw [addLoop_append env git ws_dir l1 ((id, r) :: l2) meta meta1 tr1 hl1, hstep]
  have hrepos : add_repos env git fsys ws_dir (l1 ++ (id, r) :: l2) =
      (.error ("adding worktree for " ++ id ++ ": " ++ e), tr1 ++ aevs) := by
    simp only [add_repos, hload, hbig]
  refine ⟨⟨meta1, tr1, hl1, hrepos⟩, fun ev hev => ?_, fun rr meta2 evs hl => ?_⟩
  · rw [hrepos] at hev
    rcases List.mem_append.mp hev with h | h
    · rcases addLoop_events env git ws_dir l1 meta ev (by rw [hl1]; exact h) with h2 | ⟨msg, rfl⟩
      · exact attach_event_class ev h2
      · exact ⟨fun d m2 => by simp, rfl⟩
    · exact attach_event_class ev
        (add_worktree_events env git ws_dir id meta.branch r ev (by rw [hfail]; exact h))
  · constructor
    · simp only [add_repos, hload, hl]
    · intro d m2 hmem
      rcases addLoop_events env git ws_dir rr meta _ (by rw [hl]; exact hmem) with h2 | ⟨msg, h3⟩
      · exact absurd rfl ((attach_event_class _ h2).1 d m2)
      · cases h3

/-- Witness for C9: the prefix identity is already present (skipped), the
middle identity fails to parse, and the trailing request is abandoned. -/
theorem add_repos_lenient_witness :
    (∃ meta1 tr1, addLoop exEnv exGit ["home", "dev", "workspaces", "my-ws"] exMeta
        [("github.com/acme/api-gateway", "")] = (.ok meta1, tr1) ∧
      add_repos exEnv exGit exFs ["home", "dev", "workspaces", "my-ws"]
          ([("github.com/acme/api-gateway", "")] ++
            (("badidentity", "") : String × String) :: [("github.com/acme/zzz", "")]) =
        (.error ("adding worktree for " ++ "badidentity" ++ ": " ++
          "invalid identity: badidentity"), tr1 ++ [])) ∧
    (∀ ev ∈ (add_repos exEnv exGit exFs ["home", "dev", "workspaces", "my-ws"]
        ([("github.com/acme/api-gateway", "")] ++
          (("badidentity", "") : String × String) :: [("github.com/acme/zzz", "")])).2,
      (∀ d m2, ev ≠ Event.saveMetadata d m2) ∧ ev.destructive = false) ∧
    (∀ rr meta2 evs, addLoop exEnv exGit ["home", "dev", "workspaces", "my-ws"] exMeta rr =
        (.ok meta2, evs) →
      add_repos exEnv exGit exFs ["home", "dev", "workspaces", "my-ws"] rr =
        (exFs.save ["home", "dev", "workspaces", "my-ws"] meta2,
         evs ++ [Event.saveMetadata ["home", "dev", "workspaces", "my-ws"] meta2]) ∧
      ∀ d m2, Event.saveMetadata d m2 ∉ evs) :=
  add_repos_lenient exEnv exGit exFs ["home", "dev", "workspaces", "my-ws"] exMeta
    [("github.com/acme/api-gateway", "")] [("github.com/acme/zzz", "")]
    "badidentity" "" "invalid identity: badidentity" []
    rfl
    (by
      intro p hp
      obtain rfl := List.mem_singleton.mp hp
      exact Or.inr rfl)
    rfl
    (by
      intro p hp
      obtain rfl := List.mem_singleton.mp hp
      decide)
    rfl

/-- C1: if any worktree attach or the metadata write inside `create` fails,
`create` returns the error and the final action of its trace is the removal
of the whole workspace directory it created, so no partial workspace
remains; and a metadata write appears in a `create` trace only when every
requested attach succeeded. -/
theorem create_atomic (env : Env) (git : Git) (fsys : Fs) (now : Nat)
    (name : String) (repo_refs : List (String × String)) (ws_dir : Path)
    (hws : wsDir env name = .ok ws_dir)
    (hv : validate_name name = .ok ())
    (hex : fsys.ws_dir_exists ws_dir = false)
    (hmk : fsys.create_dir_ok ws_dir = .ok ()) :
    (∀ e evs, create_inner env git fsys now name ws_dir repo_refs = (.error e, evs) →
      create env git fsys now name repo_refs =
        (.error e, Event.createDirAll ws_dir :: (evs ++ [Event.removeDirAll ws_dir]))) ∧
    (∀ res tr, create env git fsys now name repo_refs = (res, tr) →
      ∀ d m2, Event.saveMetadata d m2 ∈ tr →
        (attachAll env git ws_dir name repo_refs).1 = .ok ()) := by
  constructor
  · intro e evs h
    simp [create, hv, hws, hex, hmk, h]
  · intro res tr hc d m2 hmem
    cases ha : attachAll env git ws_dir name repo_refs with
    | mk ares aevs =>
      cases ares with
      | ok u => cases u; rfl
      | error e =>
        exfalso
        have hci : create_inner env git fsys now name ws_dir repo_refs = (.error e, aevs) := by
          simp only [create_inner, ha]
        have hcr : create env git fsys now name repo_refs =
            (.error e, Event.createDirAll ws_dir :: (aevs ++ [Event.removeDirAll ws_dir])) := by
          simp [create, hv, hws, hex, hmk, hci]
        rw [hcr] at hc
        injection hc with hc1 hc2
        rw [← hc2] at hmem
        rcases List.mem_cons.mp hmem with h2 | h2
        · cases h2
        · rcases List.mem_append.mp h2 with h3 | h3
          · have := attachAll_events env git ws_dir name repo_refs _ (by rw [ha]; exact h3)
            simp [Event.isAttach] at this
          · obtain h4 := List.mem_singleton.mp h3
            cases h4

/-- Witness for C1: creating with an unparsable identity fails the attach;
`create` ends by removing the workspace directory. -/
theorem create_atomic_witness :
    (∀ e evs, create_inner exEnv exGit exFs 0 "my-ws"
        ["home", "dev", "workspaces", "my-ws"] [("badidentity", "")] = (.error e, evs) →
      create exEnv exGit exFs 0 "my-ws" [("badidentity", "")] =
        (.error e, Event.createDirAll ["home", "dev", "workspaces", "my-ws"] ::
          (evs ++ [Event.removeDirAll ["home", "dev", "workspaces", "my-ws"]]))) ∧
    (∀ res tr, create exEnv exGit exFs 0 "my-ws" [("badidentity", "")] = (res, tr) →
      ∀ d m2, Event.saveMetadata d m2 ∈ tr →
        (attachAll exEnv exGit ["home", "dev", "workspaces", "my-ws"] "my-ws"
          [("badidentity", "")]).1 = .ok ()) :=
  create_atomic exEnv exGit exFs 0 "my-ws" [("badidentity", "")]
    ["home", "dev", "workspaces", "my-ws"] rfl rfl rfl rfl

/-- C2: merge-gate deny with state intact: with an Active repo whose shared
branch still exists in its mirror and is not reported merged into the
mirror's default branch, `remove` without `force` fails with the
unmerged-branches error, whose text names the offending repo (with the
stale-data caveat exactly when that repo's fetch failed), and its trace
holds no worktree removal, no branch deletion and no directory deletion. -/
theorem remove_merge_gate_deny (env : Env) (git : Git) (fsys : Fs) (name : String)
    (ws_dir : Path) (meta : Metadata) (identity : String)
    (entry : Option WorkspaceRepoRef) (parsed : Parsed) (mirror_dir : Path) (d : String)
    (hws : wsDir env name = .ok ws_dir)
    (hload : fsys.load ws_dir = .ok meta)
    (hmem : (identity, entry) ∈ meta.repos)
    (hact : isActiveEntry entry = true)
    (hp : Parsed.from_identity identity = .ok parsed)
    (hm : mirrorDir env parsed = .ok mirror_dir)
    (hbe : git.branch_exists mirror_dir meta.branch = true)
    (hdb : git.default_branch mirror_dir = .ok d)
    (hmg : (match git.branch_is_merged mirror_dir meta.branch d with
      | .ok b => b | .error _ => false) = false) :
    ∃ tr,
      remove env git fsys name false =
        (.error (unmergedMsg name meta.branch
          (computeUnmerged git meta.branch (partitionRepos env git meta.repos).1).1), tr) ∧
      (∃ x y, unmergedMsg name meta.branch
          (computeUnmerged git meta.branch (partitionRepos env git meta.repos).1).1 =
        x ++ (unmergedItem identity (isErrE (git.fetch mirror_dir)) ++ y)) ∧
      ∀ ev ∈ tr, ev.destructive = false := by
  have har := partition_active_mem env git meta.repos identity entry parsed mirror_dir
    hmem hact hp hm
  have hum := unmerged_mem git meta.branch (partitionRepos env git meta.repos).1
    ⟨identity, parsed, mirror_dir, isErrE (git.fetch mirror_dir)⟩ har hbe d hdb hmg
  have hne : (computeUnmerged git meta.branch (partitionRepos env git meta.repos).1).1
      ≠ [] := by
    intro h0
    rw [h0] at hum
    cases hum
  refine ⟨_, remove_gate_deny_eq env git fsys name ws_dir meta hws hload hne, ?_, ?_⟩
  · exact unmerged_msg_infix name meta.branch _ _ hum
  · intro ev hev
    rcases List.mem_append.mp hev with h | h
    · rcases partition_events env git meta.repos ev h with ⟨m, rfl⟩ | ⟨s, rfl⟩ <;> rfl
    · rcases unmerged_events git meta.branch _ ev h with ⟨s, rfl⟩
      rfl

/-- Witness for C2 at a backend whose merge check reports the branch of the
one Active repo of `exMeta` as unmerged. -/
theorem remove_merge_gate_deny_witness :
    ∃ tr,
      remove exEnv exGitUnmerged exFs "my-ws" false =
        (.error (unmergedMsg "my-ws" exMeta.branch
          (computeUnmerged exGitUnmerged exMeta.branch
            (partitionRepos exEnv exGitUnmerged exMeta.repos).1).1), tr) ∧
      (∃ x y, unmergedMsg "my-ws" exMeta.branch
          (computeUnmerged exGitUnmerged exMeta.branch
            (partitionRepos exEnv exGitUnmerged exMeta.repos).1).1 =
        x ++ (unmergedItem "github.com/acme/api-gateway"
          (isErrE (exGitUnmerged.fetch
            ["data", "ws", "mirrors", "github.com", "acme", "api-gateway.git"])) ++ y)) ∧
      ∀ ev ∈ tr, ev.destructive = false :=
  remove_merge_gate_deny exEnv exGitUnmerged exFs "my-ws"
    ["home", "dev", "workspaces", "my-ws"] exMeta "github.com/acme/api-gateway" none
    ⟨"github.com", "acme", "api-gateway"⟩
    ["data", "ws", "mirrors", "github.com", "acme", "api-gateway.git"] "main"
    rfl rfl (by decide) rfl rfl rfl rfl rfl rfl

/-- C6: past the merge gate (or invoked with `force`), worktree-removal and
branch-deletion failures never block cleanup: for every backend (its
destructive operations may all fail), `remove` still emits a worktree
removal for every repo, a branch deletion for every Active mirror where the
shared branch still exists, and finishes by removing the workspace
directory tree, the operation's result being exactly the directory-removal
outcome. -/
theorem remove_best_effort (env : Env) (git : Git) (fsys : Fs) (name : String)
    (force : Bool) (ws_dir : Path) (meta : Metadata)
    (hws : wsDir env name = .ok ws_dir)
    (hload : fsys.load ws_dir = .ok meta)
    (hgate : force = true ∨
      (computeUnmerged git meta.branch (partitionRepos env git meta.repos).1).1 = []) :
    ∃ tr, remove env git fsys name force = (fsys.remove_dir_ok ws_dir, tr) ∧
      (∀ ar ∈ (partitionRepos env git meta.repos).1,
        Event.worktreeRemove ar.mirror_dir (ws_dir ++ [ar.parsed.repo]) ∈ tr) ∧
      (∀ pc ∈ (partitionRepos env git meta.repos).2.1,
        Event.worktreeRemove pc.2 (ws_dir ++ [pc.1.repo]) ∈ tr) ∧
      (∀ ar ∈ (partitionRepos env git meta.repos).1,
        git.branch_exists ar.mirror_dir meta.branch = true →
        Event.branchDelete ar.mirror_dir meta.branch ∈ tr) ∧
      tr.getLast? = some (Event.removeDirAll ws_dir) := by
  obtain ⟨hrd, hwa, hwc, hbd, hlast⟩ := pass_trace_mem git fsys ws_dir meta.branch
    (partitionRepos env git meta.repos).1 (partitionRepos env git meta.repos).2.1
  rcases hgate with hf | hemp
  · subst hf
    refine ⟨_, remove_force_eq env git fsys name ws_dir meta hws hload, ?_, ?_, ?_, ?_⟩
    · exact fun ar har => List.mem_append_right _ (hwa ar har)
    · exact fun pc hpc => List.mem_append_right _ (hwc pc hpc)
    · exact fun ar har hbe => List.mem_append_right _ (hbd ar har hbe)
    · rw [List.getLast?_append, hlast]
      rfl
  · cases force with
    | true =>
      refine ⟨_, remove_force_eq env git fsys name ws_dir meta hws hload, ?_, ?_, ?_, ?_⟩
      · exact fun ar har => List.mem_append_right _ (hwa ar har)
      · exact fun pc hpc => List.mem_append_right _ (hwc pc hpc)
      · exact fun ar har hbe => List.mem_append_right _ (hbd ar har hbe)
      · rw [List.getLast?_append, hlast]
        rfl
    | false =>
      refine ⟨_, remove_gate_pass_eq env git fsys name ws_dir meta hws hload hemp,
        ?_, ?_, ?_, ?_⟩
      · exact fun ar har => List.mem_append_right _ (hwa ar har)
      · exact fun pc hpc => List.mem_append_right _ (hwc pc hpc)
      · exact fun ar har hbe => List.mem_append_right _ (hbd ar har hbe)
      · rw [List.getLast?_append, hlast]
        rfl

/-- Witness for C6: forced removal over `exMeta` with an all-succeeding
backend. -/
theorem remove_best_effort_witness :
    ∃ tr, remove exEnv exGit exFs "my-ws" true =
        (exFs.remove_dir_ok ["home", "dev", "workspaces", "my-ws"], tr) ∧
      (∀ ar ∈ (partitionRepos exEnv exGit exMeta.repos).1,
        Event.worktreeRemove ar.mirror_dir
          (["home", "dev", "workspaces", "my-ws"] ++ [ar.parsed.repo]) ∈ tr) ∧
      (∀ pc ∈ (partitionRepos exEnv exGit exMeta.repos).2.1,
        Event.worktreeRemove pc.2
          (["home", "dev", "workspaces", "my-ws"] ++ [pc.1.repo]) ∈ tr) ∧
      (∀ ar ∈ (partitionRepos exEnv exGit exMeta.repos).1,
        exGit.branch_exists ar.mirror_dir exMeta.branch = true →
        Event.branchDelete ar.mirror_dir exMeta.branch ∈ tr) ∧
      tr.getLast? = some (Event.removeDirAll ["home", "dev", "workspaces", "my-ws"]) :=
  remove_best_effort exEnv exGit exFs "my-ws" true
    ["home", "dev", "workspaces", "my-ws"] exMeta rfl rfl (Or.inl rfl)

/-- C10: implicit merge-gate gap: for an Active repo whose shared branch
still exists, a backend failure to report the default branch only warns and
leaves the repo out of the unmerged list, so removal can proceed with the
branch never verified as merged; whereas a backend error from the merge
check itself counts the repo as unmerged and blocks the removal. -/
theorem remove_merge_gate_gap (env : Env) (git : Git) (fsys : Fs) (name : String)
    (ws_dir : Path) (meta : Metadata) (identity : String)
    (entry : Option WorkspaceRepoRef) (parsed : Parsed) (md : Path)
    (hws : wsDir env name = .ok ws_dir)
    (hload : fsys.load ws_dir = .ok meta)
    (hmem : (identity, entry) ∈ meta.repos)
    (hact : isActiveEntry entry = true)
    (hp : Parsed.from_identity identity = .ok parsed)
    (hm : mirrorDir env parsed = .ok md)
    (hbe : git.branch_exists md meta.branch = true) :
    (∀ e, git.default_branch md = .error e →
      (∀ ff, ((identity, ff) : String × Bool) ∉
        (computeUnmerged git meta.branch (partitionRepos env git meta.repos).1).1) ∧
      Event.warn ("warning: cannot detect default branch for " ++ identity ++ ": " ++ e) ∈
        (computeUnmerged git meta.branch (partitionRepos env git meta.repos).1).2 ∧
      ((computeUnmerged git meta.branch (partitionRepos env git meta.repos).1).1 = [] →
        ∃ tr, remove env git fsys name false = (fsys.remove_dir_ok ws_dir, tr) ∧
          Event.removeDirAll ws_dir ∈ tr ∧
          Event.warn ("warning: cannot detect default branch for " ++ identity ++
            ": " ++ e) ∈ tr)) ∧
    (∀ d e, git.default_branch md = .ok d →
      git.branch_is_merged md meta.branch d = .error e →
      ((identity, isErrE (git.fetch md)) : String × Bool) ∈
        (computeUnmerged git meta.branch (partitionRepos env git meta.repos).1).1 ∧
      ∃ tr, remove env git fsys name false =
          (.error (unmergedMsg name meta.branch
            (computeUnmerged git meta.branch (partitionRepos env git meta.repos).1).1),
           tr) ∧
        ∀ ev ∈ tr, ev.destructive = false) := by
  have har := partition_active_mem env git meta.repos identity entry parsed md
    hmem hact hp hm
  constructor
  · intro e he
    refine ⟨?_, ?_, ?_⟩
    · intro ff hin
      rcases unmerged_origin git meta.branch _ (identity, ff) hin with
        ⟨ar, harmem, hpq, hbe2, d2, hd2, hmg2⟩
      rcases partition_active_origin env git meta.repos ar harmem with
        ⟨entry2, _, _, hp2, hm2, _⟩
      have hid : ar.identity = identity := by
        have := congrArg Prod.fst hpq
        exact this.symm
      rw [hid, hp] at hp2
      injection hp2 with hp2
      rw [← hp2, hm] at hm2
      injection hm2 with hm2
      rw [← hm2, he] at hd2
      cases hd2
    · exact unmerged_warn_mem git meta.branch _
        ⟨identity, parsed, md, isErrE (git.fetch md)⟩ har hbe e he
    · intro hemp
      refine ⟨_, remove_gate_pass_eq env git fsys name ws_dir meta hws hload hemp,
        ?_, ?_⟩
      · obtain ⟨hrd, _⟩ := pass_trace_mem git fsys ws_dir meta.branch
          (partitionRepos env git meta.repos).1 (partitionRepos env git meta.repos).2.1
        exact List.mem_append_right _ hrd
      · exact List.mem_append_left _ (List.mem_append_right _
          (unmerged_warn_mem git meta.branch _
            ⟨identity, parsed, md, isErrE (git.fetch md)⟩ har hbe e he))
  · intro d e hd hbm
    have hmg : (match git.branch_is_merged md meta.branch d with
        | .ok b => b | .error _ => false) = false := by
      rw [hbm]
    have hum := unmerged_mem git meta.branch (partitionRepos env git meta.repos).1
      ⟨identity, parsed, md, isErrE (git.fetch md)⟩ har hbe d hd hmg
    have hne : (computeUnmerged git meta.branch (partitionRepos env git meta.repos).1).1
        ≠ [] := by
      intro h0
      rw [h0] at hum
      cases hum
    refine ⟨hum, _, remove_gate_deny_eq env git fsys name ws_dir meta hws hload hne, ?_⟩
    intro ev hev
    rcases List.mem_append.mp hev with h | h
    · rcases partition_events env git meta.repos ev h with ⟨m, rfl⟩ | ⟨s, rfl⟩ <;> rfl
    · rcases unmerged_events git meta.branch _ ev h with ⟨s, rfl⟩
      rfl

/-- Witness for C10 at a backend that cannot detect any default branch. -/
theorem remove_merge_gate_gap_witness :
    (∀ e, exGitNoDefault.default_branch
        ["data", "ws", "mirrors", "github.com", "acme", "api-gateway.git"] = .error e →
      (∀ ff, (("github.com/acme/api-gateway", ff) : String × Bool) ∉
        (computeUnmerged exGitNoDefault exMeta.branch
          (partitionRepos exEnv exGitNoDefault exMeta.repos).1).1) ∧
      Event.warn ("warning: cannot detect default branch for " ++
        "github.com/acme/api-gateway" ++ ": " ++ e) ∈
        (computeUnmerged exGitNoDefault exMeta.branch
          (partitionRepos exEnv exGitNoDefault exMeta.repos).1).2 ∧
      ((computeUnmerged exGitNoDefault exMeta.branch
          (partitionRepos exEnv exGitNoDefault exMeta.repos).1).1 = [] →
        ∃ tr, remove exEnv exGitNoDefault exFs "my-ws" false =
            (exFs.remove_dir_ok ["home", "dev", "workspaces", "my-ws"], tr) ∧
          Event.removeDirAll ["home", "dev", "workspaces", "my-ws"] ∈ tr ∧
          Event.warn ("warning: cannot detect default branch for " ++
            "github.com/acme/api-gateway" ++ ": " ++ e) ∈ tr)) ∧
    (∀ d e, exGitNoDefault.default_branch
        ["data", "ws", "mirrors", "github.com", "acme", "api-gateway.git"] = .ok d →
      exGitNoDefault.branch_is_merged
        ["data", "ws", "mirrors", "github.com", "acme", "api-gateway.git"]
        exMeta.branch d = .error e →
      (("github.com/acme/api-gateway",
        isErrE (exGitNoDefault.fetch
          ["data", "ws", "mirrors", "github.com", "acme", "api-gateway.git"])) :
          String × Bool) ∈
        (computeUnmerged exGitNoDefault exMeta.branch
          (partitionRepos exEnv exGitNoDefault exMeta.repos).1).1 ∧
      ∃ tr, remove exEnv exGitNoDefault exFs "my-ws" false =
          (.error (unmergedMsg "my-ws" exMeta.branch
            (computeUnmerged exGitNoDefault exMeta.branch
              (partitionRepos exEnv exGitNoDefault exMeta.repos).1).1), tr) ∧
        ∀ ev ∈ tr, ev.destructive = false) :=
  remove_merge_gate_gap exEnv exGitNoDefault exFs "my-ws"
    ["home", "dev", "workspaces", "my-ws"] exMeta "github.com/acme/api-gateway" none
    ⟨"github.com", "acme", "api-gateway"⟩
    ["data", "ws", "mirrors", "github.com", "acme", "api-gateway.git"]
    rfl rfl (by decide) rfl rfl rfl rfl

/-- C5: `remove` only deletes what it owns: every branch deletion in its
trace targets the shared workspace branch at the mirror of an Active entry
where that branch still exists, every directory-tree removal targets the
workspace directory itself (never a mirror), every worktree removal
targets a repo's worktree under the workspace directory, and the mirror of
a Context entry never receives a branch deletion. -/
theorem remove_frame (env : Env) (git : Git) (fsys : Fs) (name : String)
    (force : Bool) (ws_dir : Path) (meta : Metadata)
    (hws : wsDir env name = .ok ws_dir)
    (hload : fsys.load ws_dir = .ok meta)
    (hnd : (meta.repos.map Prod.fst).Nodup) :
    ∀ res tr, remove env git fsys name force = (res, tr) →
      (∀ m b, Event.branchDelete m b ∈ tr →
        b = meta.branch ∧ git.branch_exists m meta.branch = true ∧
        ∃ id entry parsed2, (id, entry) ∈ meta.repos ∧ isActiveEntry entry = true ∧
          Parsed.from_identity id = .ok parsed2 ∧ mirrorDir env parsed2 = .ok m) ∧
      (∀ p, Event.removeDirAll p ∈ tr → p = ws_dir) ∧
      (∀ m p, Event.worktreeRemove m p ∈ tr →
        ∃ id entry parsed2, (id, entry) ∈ meta.repos ∧
          Parsed.from_identity id = .ok parsed2 ∧ mirrorDir env parsed2 = .ok m ∧
          p = ws_dir ++ [parsed2.repo]) ∧
      (∀ id entry parsed2 md, (id, entry) ∈ meta.repos →
        isActiveEntry entry = false →
        Parsed.from_identity id = .ok parsed2 → mirrorDir env parsed2 = .ok md →
        ∀ b, Event.branchDelete md b ∉ tr) := by
  intro res tr hrm
  have hcases := remove_trace_cases env git fsys name force ws_dir meta res tr
    hws hload hrm
  have hbd : ∀ m b, Event.branchDelete m b ∈ tr →
      b = meta.branch ∧ git.branch_exists m meta.branch = true ∧
      ∃ ar ∈ (partitionRepos env git meta.repos).1, m = ar.mirror_dir := by
    intro m b hin
    rcases hcases _ hin with ⟨m2, h⟩ | ⟨s, h⟩ | ⟨ar, _, h⟩ | ⟨pc, _, h⟩ |
      ⟨ar, harmem, h, hbe2⟩ | h
    · cases h
    · cases h
    · cases h
    · cases h
    · injection h with h1 h2
      subst h1
      subst h2
      exact ⟨rfl, hbe2, ar, harmem, rfl⟩
    · cases h
  refine ⟨fun m b hin => ?_, fun p hin => ?_, fun m p hin => ?_, ?_⟩
  · rcases hbd m b hin with ⟨hb, hbe2, ar, harmem, hmm⟩
    rcases partition_active_origin env git meta.repos ar harmem with
      ⟨entry2, hmem2, hact2, hp2, hm2, _⟩
    exact ⟨hb, hbe2, ar.identity, entry2, ar.parsed, hmem2, hact2, hp2, hmm ▸ hm2⟩
  · rcases hcases _ hin with ⟨m2, h⟩ | ⟨s, h⟩ | ⟨ar, _, h⟩ | ⟨pc, _, h⟩ |
      ⟨ar, _, h, _⟩ | h
    · cases h
    · cases h
    · cases h
    · cases h
    · cases h
    · exact Event.removeDirAll.inj h
  · rcases hcases _ hin with ⟨m2, h⟩ | ⟨s, h⟩ | ⟨ar, harmem, h⟩ | ⟨pc, hpcmem, h⟩ |
      ⟨ar, _, h, _⟩ | h
    · cases h
    · cases h
    · injection h with h1 h2
      rcases partition_active_origin env git meta.repos ar harmem with
        ⟨entry2, hmem2, _, hp2, hm2, _⟩
      exact ⟨ar.identity, entry2, ar.parsed, hmem2, hp2, h1 ▸ hm2, h2⟩
    · injection h with h1 h2
      rcases partition_context_origin env git meta.repos pc hpcmem with
        ⟨id2, entry2, hmem2, _, hp2, hm2⟩
      exact ⟨id2, entry2, pc.1, hmem2, hp2, h1 ▸ hm2, h2⟩
    · cases h
    · cases h
  · intro id entry parsed2 md hmem2 hctx hp2 hm2 b hin
    rcases hbd md b hin with ⟨hb, hbe2, ar, harmem, hmm⟩
    rcases partition_active_origin env git meta.repos ar harmem with
      ⟨entry3, hmem3, hact3, hp3, hm3, _⟩
    have hpar : ar.parsed = parsed2 := by
      apply mirrorDir_inj env ar.parsed parsed2 md
      · rw [hmm]
        exact hm3
      · exact hm2
    have hids : ar.identity = id := by
      apply from_identity_inj ar.identity id parsed2
      · rw [← hpar]
        exact hp3
      · exact hp2
    rw [hids] at hmem3
    have hent := entry_unique meta.repos hnd id entry3 entry hmem3 hmem2
    rw [hent] at hact3
    rw [hctx] at hact3
    cases hact3

/-- Witness for C5: forced removal over `exMeta` (duplicate-free keys) with
an all-succeeding backend. -/
theorem remove_frame_witness :
    (∀ m b, Event.branchDelete m b ∈ (remove exEnv exGit exFs "my-ws" true).2 →
      b = exMeta.branch ∧ exGit.branch_exists m exMeta.branch = true ∧
      ∃ id entry parsed2, (id, entry) ∈ exMeta.repos ∧ isActiveEntry entry = true ∧
        Parsed.from_identity id = .ok parsed2 ∧ mirrorDir exEnv parsed2 = .ok m) ∧
    (∀ p, Event.removeDirAll p ∈ (remove exEnv exGit exFs "my-ws" true).2 →
      p = ["home", "dev", "workspaces", "my-ws"]) ∧
    (∀ m p, Event.worktreeRemove m p ∈ (remove exEnv exGit exFs "my-ws" true).2 →
      ∃ id entry parsed2, (id, entry) ∈ exMeta.repos ∧
        Parsed.from_identity id = .ok parsed2 ∧ mirrorDir exEnv parsed2 = .ok m ∧
        p = ["home", "dev", "workspaces", "my-ws"] ++ [parsed2.repo]) ∧
    (∀ id entry parsed2 md, (id, entry) ∈ exMeta.repos →
      isActiveEntry entry = false →
      Parsed.from_identity id = .ok parsed2 → mirrorDir exEnv parsed2 = .ok md →
      ∀ b, Event.branchDelete md b ∉ (remove exEnv exGit exFs "my-ws" true).2) :=
  remove_frame exEnv exGit exFs "my-ws" true ["home", "dev", "workspaces", "my-ws"]
    exMeta rfl rfl (by decide)
    (remove exEnv exGit exFs "my-ws" true).1
    (remove exEnv exGit exFs "my-ws" true).2 rfl

end Ws
